import Mathlib

/- Verification development for the multi-account action orchestrator backend
   (a bilibili reporting/auto-reply tool).  The Python sources under
   `backend/` are shallowly embedded below: pure helpers become Lean
   functions, database tables become lists of row records, network calls
   become oracle parameters, and sleeps/HTTP attempts are recorded as
   explicit event traces. -/

namespace BiliSentinel

/-- A normalized platform response envelope `{code, message}` as produced by
`BilibiliClient`.  `code` is `none` when the JSON body has no "code" key. -/
structure Envelope where
  code : Option Int
  message : Option String
  deriving Repr, DecidableEq

/-- A row of the `targets` table. -/
structure Target where
  id : Nat
  ttype : String
  identifier : String
  aid : Option Int
  reasonId : Option Int
  reasonContentId : Option Int
  reasonText : Option String
  status : String
  retryCount : Nat
  deriving Repr, DecidableEq

/-- A row of the `accounts` table. -/
structure Account where
  id : Nat
  name : String
  sessdata : String
  biliJct : String
  buvid3 : String
  buvid4 : String
  dedeuseridCkmd5 : String
  refreshToken : String
  groupTag : String
  isActive : Bool
  status : String
  lastCheckAt : Option String
  deriving Repr, DecidableEq

/-- A row of the `report_logs` audit table (the columns the embedded code
writes). -/
structure ReportLogRow where
  targetId : Option Nat
  accountId : Option Nat
  action : String
  success : Bool
  errorMessage : Option String
  deriving Repr, DecidableEq

/-! ## Platform client: `BilibiliClient._request` (backend/core/bilibili_client.py)

The retry loop `for attempt in range(retries)` is embedded as `requestFrom`,
recursing on the remaining attempt budget.  The outcome of each HTTP attempt
(the parsed JSON body, or a transport error) is an oracle `outcomes : Nat →
AttemptOutcome` indexed by the attempt counter.  Each attempt and each
`asyncio.sleep` is recorded in the returned event trace. -/

/-- Outcome of one HTTP attempt inside `_request`: either a transport
exception (`httpx.TimeoutException/ConnectError/ReadError`) or a parsed JSON
body whose "code" entry is `code`; `tag` identifies the concrete body so that
"the same response object is returned to the caller" is expressible. -/
inductive AttemptOutcome where
  | netErr
  | resp (code : Option Int) (tag : Nat)
  deriving Repr, DecidableEq

/-- What `_request` hands back: either one of the attempt bodies
(`synthetic = false`, identified by `tag`) or the synthetic exhaustion
envelope `{"code": -999, "message": "Max retries reached: ..."}`. -/
structure RequestReturn where
  code : Option Int
  synthetic : Bool
  tag : Nat
  deriving Repr, DecidableEq

/-- Events observable from the retry loop of `_request`.  `backoffSleep i` is
the `5 * 2**attempt + U(0,2)` sleep, `netSleep i` the `(attempt+1)*2` sleep
after a transport error. -/
inductive REvent where
  | attempt (i : Nat)
  | backoffSleep (i : Nat)
  | netSleep (i : Nat)
  deriving Repr, DecidableEq

/-- The body of `BilibiliClient._request`: `i` is the current attempt index
and the second argument the remaining attempt budget (initially `retries`).
The if-chain mirrors the source order: `-412` backoff-continue; `-352`,
`-101`, `-799` returned immediately; `862`/`101` backoff-continue; any other
body returned; transport errors sleep and continue.  Exhaustion yields the
synthetic `-999` envelope. -/
def requestFrom (outcomes : Nat → AttemptOutcome) : Nat → Nat → List REvent × RequestReturn
  | _, 0 => ([], { code := some (-999), synthetic := true, tag := 0 })
  | i, fuel + 1 =>
    match outcomes i with
    | .netErr =>
      let rest := requestFrom outcomes (i + 1) fuel
      (.attempt i :: .netSleep i :: rest.1, rest.2)
    | .resp code tag =>
      if code == some (-412) then
        let rest := requestFrom outcomes (i + 1) fuel
        (.attempt i :: .backoffSleep i :: rest.1, rest.2)
      else if code == some (-352) then
        ([.attempt i], { code := code, synthetic := false, tag := tag })
      else if code == some (-101) then
        ([.attempt i], { code := code, synthetic := false, tag := tag })
      else if code == some (-799) then
        ([.attempt i], { code := code, synthetic := false, tag := tag })
      else if code == some 862 || code == some 101 then
        let rest := requestFrom outcomes (i + 1) fuel
        (.attempt i :: .backoffSleep i :: rest.1, rest.2)
      else
        ([.attempt i], { code := code, synthetic := false, tag := tag })

/-- `BilibiliClient._request` with its full attempt budget (`MAX_RETRIES`,
default 3). -/
def bilibiliRequest (retries : Nat) (outcomes : Nat → AttemptOutcome) :
    List REvent × RequestReturn :=
  requestFrom outcomes 0 retries

/-! ## Action executor: `report_service.execute_single_report` -/

/-- The client call selected by `execute_single_report` after resolving the
kind-specific arguments. -/
inductive ClientCall where
  | reportVideo (aid : Int) (reason : Int) (content : String) (bvid : String)
  | reportComment (oid rpid reason : Int) (content : String) (bvid : String)
  | reportUser (mid reasonV2 reason : Int)
  | unknownType
  deriving Repr, DecidableEq

/-- Python `x or d` for an optional integer column (both `None` and `0` are
falsy). -/
def orDefaultInt (v : Option Int) (d : Int) : Int :=
  match v with
  | none => d
  | some x => if x = 0 then d else x

/-- Whether the character list `p` is an initial segment of `s`
(Python `s.startswith(p)` on the code-point level). -/
def strStartsWith : List Char → List Char → Bool
  | _, [] => true
  | [], _ :: _ => false
  | c :: s, d :: p => c == d && strStartsWith s p

/-- Python `s.split(sep)` for a one-character separator, on code points. -/
def splitOnChar (sep : Char) : List Char → List (List Char)
  | [] => [[]]
  | c :: rest =>
    let parts := splitOnChar sep rest
    if c == sep then [] :: parts
    else
      match parts with
      | [] => [[c]]
      | p :: ps => (c :: p) :: ps

/-- Decimal digits to a natural number (`none` on empty or non-digit input). -/
def digitsToNat? : List Char → Option Nat
  | [] => none
  | l => l.foldl (fun acc c =>
      match acc with
      | none => none
      | some n => if '0' ≤ c ∧ c ≤ '9' then some (n * 10 + (c.toNat - '0'.toNat)) else none)
      (some 0)

/-- Python `int(s)` on a decimal string with an optional leading minus sign;
`none` models the `ValueError`. -/
def pyInt? (l : List Char) : Option Int :=
  match l with
  | '-' :: rest => (digitsToNat? rest).map (fun n => -(n : Int))
  | _ => (digitsToNat? l).map (fun n => (n : Int))

/-- Argument resolution of `execute_single_report`: `none` models the
`int(...)` `ValueError` path (caught by the surrounding `except`).
`videoInfoCode`/`videoInfoAid` are the result of the `get_video_info` lookup
used for `BV` identifiers without a cached aid. -/
def resolveCall (t : Target) (videoInfoCode : Option Int) (videoInfoAid : Int) :
    Option ClientCall :=
  let bvid := if strStartsWith t.identifier.toList "BV".toList then t.identifier else ""
  if t.ttype = "video" then
    let aid0 := orDefaultInt t.aid 0
    let aid := if aid0 = 0 ∧ bvid ≠ "" ∧ videoInfoCode = some 0 then videoInfoAid else aid0
    some (.reportVideo aid (orDefaultInt t.reasonId 1)
      ((t.reasonText.getD "")) bvid)
  else if t.ttype = "comment" then
    let commentReason0 := orDefaultInt t.reasonId 4
    let commentReason :=
      if commentReason0 = 1 ∨ commentReason0 = 2 ∨ commentReason0 = 3 ∨ commentReason0 = 4 ∨
          commentReason0 = 5 ∨ commentReason0 = 7 ∨ commentReason0 = 8 ∨ commentReason0 = 9 then
        commentReason0
      else 4
    if t.identifier.toList.contains ':' then
      match (splitOnChar ':' t.identifier.toList).head?.bind pyInt?,
          (splitOnChar ':' t.identifier.toList).getLast?.bind pyInt? with
      | some oid, some rpid =>
        some (.reportComment oid rpid commentReason (t.reasonText.getD "") bvid)
      | _, _ => none
    else
      match pyInt? t.identifier.toList with
      | some rpid =>
        some (.reportComment (orDefaultInt t.aid 0) rpid commentReason (t.reasonText.getD "") bvid)
      | none => none
  else if t.ttype = "user" then
    match pyInt? t.identifier.toList with
    | some mid =>
      some (.reportUser mid (orDefaultInt t.reasonId 4) (orDefaultInt t.reasonContentId 1))
    | none => none
  else
    some .unknownType

/-- The outcome classification of `execute_single_report`:
`success = code == 0 or code in (12022, 12008)`. -/
def classifySuccess (code : Option Int) : Bool :=
  code == some 0 || code == some 12022 || code == some 12008

/-- The result record returned by `execute_single_report`. -/
structure ReportResult where
  targetId : Nat
  accountId : Nat
  accountName : String
  success : Bool
  message : String
  response : Option Envelope
  deriving Repr, DecidableEq

/-- The envelope `execute_single_report` classifies: the platform response
for a real call, or the inline `{"code": -1, "message": "Unknown target
type"}` dictionary for an unrecognized target type. -/
def singleReportEnvelope (call : ClientCall) (clientResp : ClientCall → Envelope) : Envelope :=
  match call with
  | .unknownType => { code := some (-1), message := some "Unknown target type" }
  | c => clientResp c

/-- `report_service.execute_single_report target account` with the platform
response supplied by the oracle `clientResp`.  Returns the result record and
the `report_logs` row it inserts.  The `none`-resolution branch is the
`except Exception` path (a `ValueError` from `int(...)`). -/
def execute_single_report (t : Target) (a : Account)
    (videoInfoCode : Option Int) (videoInfoAid : Int)
    (clientResp : ClientCall → Envelope) : ReportResult × ReportLogRow :=
  match resolveCall t videoInfoCode videoInfoAid with
  | none =>
    ({ targetId := t.id, accountId := a.id, accountName := a.name,
       success := false, message := "invalid literal for int() with base 10",
       response := none },
     { targetId := some t.id, accountId := some a.id, action := "report_" ++ t.ttype,
       success := false, errorMessage := some "invalid literal for int() with base 10" })
  | some call =>
    let result := singleReportEnvelope call clientResp
    let success := classifySuccess result.code
    ({ targetId := t.id, accountId := a.id, accountName := a.name,
       success := success,
       message := result.message.getD (if success then "OK" else "Failed"),
       response := some result },
     { targetId := some t.id, accountId := some a.id, action := "report_" ++ t.ttype,
       success := success,
       errorMessage := if success then none else some (result.message.getD "Unknown error") })

/-! ## Cross-domain client: `_request_cross_domain` and `report_user` -/

/-- A parsed JSON body of the `space.bilibili.com/ajax/report/add` endpoint:
it may carry a platform "code" and/or a boolean "status". -/
structure CrossResp where
  code : Option Int
  status : Option Bool
  tag : Nat
  deriving Repr, DecidableEq

/-- Outcome of one HTTP attempt inside `_request_cross_domain`. -/
inductive CrossOutcome where
  | netErr
  | resp (r : CrossResp)
  deriving Repr, DecidableEq

/-- `BilibiliClient._request_cross_domain`: `-412` backoff-continue, `-352`
returned immediately, anything else returned; transport errors sleep and
continue; exhaustion returns `{"status": False, "data": "Max retries
reached..."}` (no "code" entry). -/
def crossRequestFrom (outcomes : Nat → CrossOutcome) : Nat → Nat → List REvent × CrossResp
  | _, 0 => ([], { code := none, status := some false, tag := 0 })
  | i, fuel + 1 =>
    match outcomes i with
    | .netErr =>
      let rest := crossRequestFrom outcomes (i + 1) fuel
      (.attempt i :: .netSleep i :: rest.1, rest.2)
    | .resp r =>
      if r.code == some (-412) then
        let rest := crossRequestFrom outcomes (i + 1) fuel
        (.attempt i :: .backoffSleep i :: rest.1, rest.2)
      else if r.code == some (-352) then
        ([.attempt i], r)
      else
        ([.attempt i], r)

/-- `BilibiliClient.report_user`: issues the cross-domain request and maps the
body to `{"code": 0, ...}` when `result.get("status") is True`, else to
`{"code": -1, ...}`. -/
def report_user (retries : Nat) (outcomes : Nat → CrossOutcome) : Envelope :=
  let result := (crossRequestFrom outcomes 0 retries).2
  if result.status == some true then
    { code := some 0, message := some "OK" }
  else
    { code := some (-1), message := some "Unknown error" }

/-! ## Claim theorems for the platform client -/

/-- **C3**: in `_request`, a response with code `-352`, `-101` or `-799` is
returned to the caller immediately (exactly one attempt, no backoff sleep,
the very same body); codes `-412`, `862`, `101` record a backoff sleep and
hand over to the next attempt; an exhausted attempt budget returns the
synthetic `-999` envelope.  The embedding is a total function, so no
platform-level error can raise. -/
theorem C3_request_retry_policy (outcomes : Nat → AttemptOutcome) (i fuel : Nat)
    (code : Option Int) (tag : Nat) :
    (outcomes i = .resp code tag →
      (code = some (-352) ∨ code = some (-101) ∨ code = some (-799)) →
      requestFrom outcomes i (fuel + 1) =
        ([.attempt i], { code := code, synthetic := false, tag := tag }))
    ∧ (outcomes i = .resp code tag →
      (code = some (-412) ∨ code = some 862 ∨ code = some 101) →
      requestFrom outcomes i (fuel + 1) =
        (.attempt i :: .backoffSleep i :: (requestFrom outcomes (i + 1) fuel).1,
          (requestFrom outcomes (i + 1) fuel).2))
    ∧ requestFrom outcomes i 0 =
        ([], { code := some (-999), synthetic := true, tag := 0 }) := by
  refine ⟨?_, ?_, rfl⟩
  · intro h hc
    rcases hc with hc | hc | hc <;> subst hc <;> simp [requestFrom, h]
  · intro h hc
    rcases hc with hc | hc | hc <;> subst hc <;> simp [requestFrom, h]

/-- Witness for C3 at concrete inputs. -/
theorem C3_request_retry_policy_witness :
    ((fun _ => AttemptOutcome.resp (some (-352)) 7) 0 = .resp (some (-352)) 7) ∧
    requestFrom (fun _ => AttemptOutcome.resp (some (-352)) 7) 0 (2 + 1) =
      ([.attempt 0], { code := some (-352), synthetic := false, tag := 7 }) :=
  ⟨rfl, (C3_request_retry_policy (fun _ => AttemptOutcome.resp (some (-352)) 7)
      0 2 (some (-352)) 7).1 rfl (Or.inl rfl)⟩

/-- The classification predicate, spelled out. -/
theorem classifySuccess_iff (c : Option Int) :
    classifySuccess c = true ↔ c = some 0 ∨ c = some 12008 ∨ c = some 12022 := by
  cases c with
  | none => simp [classifySuccess]
  | some x =>
    simp only [classifySuccess, Bool.or_eq_true, beq_iff_eq, Option.some.injEq]
    tauto

/-- **C4**: whenever `execute_single_report` reaches a platform response (no
argument-resolution exception), the attempt is classified as success exactly
when the response code is `0`, `12008` or `12022`; the audit row success flag
equals this classification. -/
theorem C4_success_classification (t : Target) (a : Account)
    (vc : Option Int) (va : Int) (clientResp : ClientCall → Envelope)
    (call : ClientCall) (h : resolveCall t vc va = some call) :
    (execute_single_report t a vc va clientResp).1.success =
      classifySuccess (singleReportEnvelope call clientResp).code
    ∧ (execute_single_report t a vc va clientResp).2.success =
      (execute_single_report t a vc va clientResp).1.success
    ∧ ((execute_single_report t a vc va clientResp).1.success = true ↔
      (singleReportEnvelope call clientResp).code = some 0 ∨
      (singleReportEnvelope call clientResp).code = some 12008 ∨
      (singleReportEnvelope call clientResp).code = some 12022) := by
  have h1 : (execute_single_report t a vc va clientResp).1.success =
      classifySuccess (singleReportEnvelope call clientResp).code := by
    simp [execute_single_report, h]
  have h2 : (execute_single_report t a vc va clientResp).2.success =
      (execute_single_report t a vc va clientResp).1.success := by
    simp [execute_single_report, h]
  exact ⟨h1, h2, h1 ▸ classifySuccess_iff _⟩

/-- Concrete user target used in the C4 witness. -/
def c4Target : Target :=
  { id := 1, ttype := "user", identifier := "12345", aid := none,
    reasonId := some 4, reasonContentId := some 1, reasonText := none,
    status := "pending", retryCount := 0 }

/-- Concrete account used in the C4 witness. -/
def c4Account : Account :=
  { id := 2, name := "a", sessdata := "s", biliJct := "j", buvid3 := "",
    buvid4 := "", dedeuseridCkmd5 := "", refreshToken := "",
    groupTag := "default", isActive := true, status := "valid",
    lastCheckAt := none }

/-- Constant platform oracle used in the C4 witness. -/
def c4Oracle : ClientCall → Envelope :=
  fun _ => { code := some 12008, message := some "already reported" }

/-- Witness for C4: a concrete user target whose report comes back with the
already-reported code 12008 is classified as a success. -/
theorem C4_success_classification_witness :
    resolveCall c4Target none 0 = some (.reportUser 12345 4 1) ∧
    (execute_single_report c4Target c4Account none 0 c4Oracle).1.success = true := by
  have h : resolveCall c4Target none 0 = some (.reportUser 12345 4 1) := by decide
  refine ⟨h, ?_⟩
  exact ((C4_success_classification c4Target c4Account none 0 c4Oracle _ h).2.2).mpr
    (Or.inr (Or.inl (by decide)))

/-! ## Auto-reply service modes: mutual exclusion (C9)

`autoreply_service.start_service` refuses to start the standalone loop when
it is already running or when an active `autoreply_poll` scheduled task
exists (`scheduler_service.has_active_autoreply_poll_task`), and
`scheduler_service._run_autoreply_poll` skips its cycle when the standalone
loop is running (`autoreply_service.is_running`). -/

/-- The state the two start paths inspect: the module-global
`_autoreply_running` flag and whether the `scheduled_tasks` table holds an
active row with `task_type = "autoreply_poll"`. -/
structure AutoreplyModes where
  autoreplyRunning : Bool
  activeAutoreplyPollTask : Bool
  deriving Repr, DecidableEq

/-- `autoreply_service.start_service`: returns `False` (without touching the
state) when the loop already runs or an active scheduled poll task exists;
otherwise sets `_autoreply_running = True` and launches the loop. -/
def start_service (s : AutoreplyModes) : Bool × AutoreplyModes :=
  if s.autoreplyRunning then (false, s)
  else if s.activeAutoreplyPollTask then (false, s)
  else (true, { s with autoreplyRunning := true })

/-- `scheduler_service._run_autoreply_poll`: whether the scheduled job
actually runs a poll cycle (it returns early when the standalone service is
running). -/
def run_autoreply_poll_job (s : AutoreplyModes) : Bool :=
  if s.autoreplyRunning then false else true

/-- **C9**: each mode's start operation inspects the other mode's
running/active state and refuses whenever the other is active: the
standalone loop does not start while an active scheduled poll task exists,
and the scheduled poll job skips its cycle while the standalone loop runs;
hence the two modes never poll at the same time. -/
theorem C9_mutual_exclusion (s : AutoreplyModes) :
    (s.activeAutoreplyPollTask = true →
      start_service s = (false, s))
    ∧ (s.autoreplyRunning = true → run_autoreply_poll_job s = false)
    ∧ ¬((start_service s).1 = true ∧ run_autoreply_poll_job (start_service s).2 = true
        ∧ s.activeAutoreplyPollTask = true) := by
  refine ⟨?_, ?_, ?_⟩
  · intro h
    by_cases hr : s.autoreplyRunning <;> simp [start_service, hr, h]
  · intro h
    simp [run_autoreply_poll_job, h]
  · rintro ⟨h1, _, h3⟩
    by_cases hr : s.autoreplyRunning <;> simp [start_service, hr, h3] at h1

/-- Witness for C9 at a concrete state. -/
theorem C9_mutual_exclusion_witness :
    start_service { autoreplyRunning := false, activeAutoreplyPollTask := true } =
      (false, { autoreplyRunning := false, activeAutoreplyPollTask := true }) :=
  (C9_mutual_exclusion { autoreplyRunning := false, activeAutoreplyPollTask := true }).1 rfl

/-! ## Single-target dispatch claim step (C1)

The repository's tests exercise `report_service.claim_target_for_processing`
(TC-ST-003) and `report_service.py` line 164 notes that the API layer claims
the target before the sweep, but the claiming function itself is not among
the provided sources. -/

/-- Modelled from the spec: `claim_target_for_processing`, the compare-and-set
claim of the single-target dispatch path.  Spec §4.F: "atomically transition
the target from `pending`→`processing` only if it is currently `pending`
(compare-and-set).  If the CAS fails, reject as conflict."  Embedded as the
SQL `UPDATE targets SET status = 'processing' WHERE id = ? AND status =
'pending'`, succeeding exactly when a row was changed. -/
def claim_target_for_processing (targets : List Target) (targetId : Nat) :
    Bool × List Target :=
  (targets.any (fun t => t.id == targetId && t.status == "pending"),
   targets.map (fun t =>
     if t.id == targetId && t.status == "pending" then { t with status := "processing" }
     else t))

/-- **C1**: the claim step moves a target from `pending` to `processing` only
if it is currently `pending`; claiming a target that is not `pending` (for
example already `processing`) reports a conflict and leaves every row of the
table — status, retry counter and all other columns — unchanged. -/
theorem C1_cas_claim (targets : List Target) (tid : Nat) :
    ((∀ t ∈ targets, t.id = tid → t.status ≠ "pending") →
      claim_target_for_processing targets tid = (false, targets))
    ∧ (∀ r ∈ targets, r.id = tid → r.status = "pending" →
      (claim_target_for_processing targets tid).1 = true
      ∧ { r with status := "processing" } ∈ (claim_target_for_processing targets tid).2) := by
  constructor
  · intro h
    have hany : targets.any (fun t => t.id == tid && t.status == "pending") = false := by
      rw [List.any_eq_false]
      intro t ht
      simp only [Bool.and_eq_true, beq_iff_eq, not_and]
      intro htid hst
      exact h t ht htid hst
    have hmap : targets.map (fun t =>
        if t.id == tid && t.status == "pending" then { t with status := "processing" }
        else t) = targets := by
      conv_rhs => rw [← List.map_id targets]
      refine List.map_congr_left ?_
      intro t ht
      have hcond : (t.id == tid && t.status == "pending") = false := by
        by_cases hid : t.id = tid
        · have := h t ht hid
          simp [hid, this]
        · simp [hid]
      simp [hcond]
    unfold claim_target_for_processing
    rw [hany, hmap]
  · intro r hr hid hst
    constructor
    · exact List.any_eq_true.mpr ⟨r, hr, by simp [hid, hst]⟩
    · exact List.mem_map.mpr ⟨r, hr, by simp [hid, hst]⟩

/-- Concrete already-claimed target used in the C1 witness. -/
def c1ProcessingTarget : Target :=
  { id := 1, ttype := "video", identifier := "BV1xx", aid := some 10,
    reasonId := some 1, reasonContentId := none, reasonText := none,
    status := "processing", retryCount := 2 }

/-- Witness for C1: a one-row table with a `processing` target is rejected
unchanged. -/
theorem C1_cas_claim_witness :
    claim_target_for_processing [c1ProcessingTarget] 1 = (false, [c1ProcessingTarget]) :=
  (C1_cas_claim [c1ProcessingTarget] 1).1 (by decide)

/-- **C10**: `report_user` always returns code `0` or code `-1`; it returns
`0` exactly when the cross-domain body had `status = True`.  In particular
the codes `12008`, `12022`, `-352` and `-999` of the other request paths
never reach the caller of `report_user`. -/
theorem C10_report_user_codes (retries : Nat) (outcomes : Nat → CrossOutcome) :
    ((report_user retries outcomes).code = some 0 ∨
      (report_user retries outcomes).code = some (-1))
    ∧ ((report_user retries outcomes).code = some 0 ↔
      (crossRequestFrom outcomes 0 retries).2.status = some true)
    ∧ (report_user retries outcomes).code ≠ some 12008
    ∧ (report_user retries outcomes).code ≠ some 12022
    ∧ (report_user retries outcomes).code ≠ some (-352)
    ∧ (report_user retries outcomes).code ≠ some (-999) := by
  by_cases h : (crossRequestFrom outcomes 0 retries).2.status = some true <;>
    simp [report_user, h]

/-! ## Credential store: `account_service.update_account` (C8)

`ALLOWED_UPDATE_FIELDS = {"name", "sessdata", "bili_jct", "buvid3",
"buvid4", "dedeuserid_ckmd5", "refresh_token", "group_tag", "is_active"}`
is embedded as the `AccField` enumeration; `STATUS_RESET_FIELDS =
{"sessdata", "bili_jct"}` plus the `field.startswith("buvid")` test decide
whether the one-statement UPDATE also resets `status`/`last_check_at`. -/

/-- The updatable columns of `accounts` (exactly `ALLOWED_UPDATE_FIELDS`). -/
inductive AccField where
  | nameF | sessdataF | biliJctF | buvid3F | buvid4F
  | dedeuseridCkmd5F | refreshTokenF | groupTagF | isActiveF
  deriving Repr, DecidableEq

/-- SQL column name of an updatable field. -/
def AccField.columnName : AccField → String
  | .nameF => "name"
  | .sessdataF => "sessdata"
  | .biliJctF => "bili_jct"
  | .buvid3F => "buvid3"
  | .buvid4F => "buvid4"
  | .dedeuseridCkmd5F => "dedeuserid_ckmd5"
  | .refreshTokenF => "refresh_token"
  | .groupTagF => "group_tag"
  | .isActiveF => "is_active"

/-- A column value in an update payload. -/
inductive AccVal where
  | vs (s : String)
  | vb (b : Bool)
  deriving Repr, DecidableEq

/-- The current value of a column (`existing.get(field)`). -/
def Account.getField (a : Account) : AccField → AccVal
  | .nameF => .vs a.name
  | .sessdataF => .vs a.sessdata
  | .biliJctF => .vs a.biliJct
  | .buvid3F => .vs a.buvid3
  | .buvid4F => .vs a.buvid4
  | .dedeuseridCkmd5F => .vs a.dedeuseridCkmd5
  | .refreshTokenF => .vs a.refreshToken
  | .groupTagF => .vs a.groupTag
  | .isActiveF => .vb a.isActive

/-- Writing one column (`field = ?` inside the UPDATE). -/
def Account.setField (a : Account) : AccField → AccVal → Account
  | .nameF, .vs v => { a with name := v }
  | .sessdataF, .vs v => { a with sessdata := v }
  | .biliJctF, .vs v => { a with biliJct := v }
  | .buvid3F, .vs v => { a with buvid3 := v }
  | .buvid4F, .vs v => { a with buvid4 := v }
  | .dedeuseridCkmd5F, .vs v => { a with dedeuseridCkmd5 := v }
  | .refreshTokenF, .vs v => { a with refreshToken := v }
  | .groupTagF, .vs v => { a with groupTag := v }
  | .isActiveF, .vb v => { a with isActive := v }
  | _, _ => a

/-- `field in STATUS_RESET_FIELDS or field.startswith("buvid")`. -/
def AccField.triggersStatusReset (f : AccField) : Bool :=
  f.columnName == "sessdata" || f.columnName == "bili_jct" ||
    strStartsWith f.columnName.toList "buvid".toList

/-- The update pairs whose value is not `None` (the loop body filter
`if value is not None and field in ALLOWED_UPDATE_FIELDS`). -/
def appliedUpdates (fields : List (AccField × Option AccVal)) :
    List (AccField × AccVal) :=
  fields.filterMap (fun fv => fv.2.map (fun w => (fv.1, w)))

/-- `account_service.update_account` on an existing row: collects the
non-`None` allowed fields, decides `should_reset_status` by comparing each
reset-triggering field against the existing row, and applies all changes —
plus, when flagged, `status = 'unknown', last_check_at = NULL` — in a single
UPDATE statement.  `none` is the `"no_valid_fields"` outcome. -/
def update_account (a : Account) (fields : List (AccField × Option AccVal)) :
    Option Account :=
  if (appliedUpdates fields).isEmpty then none
  else if (appliedUpdates fields).any
      (fun fw => fw.1.triggersStatusReset && (a.getField fw.1 != fw.2)) then
    some { (appliedUpdates fields).foldl (fun acc fw => acc.setField fw.1 fw.2) a with
           status := "unknown", lastCheckAt := none }
  else
    some ((appliedUpdates fields).foldl (fun acc fw => acc.setField fw.1 fw.2) a)

/-- The reset trigger, spelled out over the enumeration. -/
theorem triggersStatusReset_iff (f : AccField) :
    f.triggersStatusReset = true ↔
      (f = .sessdataF ∨ f = .biliJctF ∨ f = .buvid3F ∨ f = .buvid4F) := by
  cases f <;> decide

/-- Writing a column never touches `status`. -/
theorem setField_status (a : Account) (f : AccField) (w : AccVal) :
    (a.setField f w).status = a.status := by
  cases f <;> cases w <;> rfl

/-- Writing a column never touches `last_check_at`. -/
theorem setField_lastCheckAt (a : Account) (f : AccField) (w : AccVal) :
    (a.setField f w).lastCheckAt = a.lastCheckAt := by
  cases f <;> cases w <;> rfl

/-- Applying a batch of column writes never touches `status`. -/
theorem foldl_setField_status (l : List (AccField × AccVal)) (a : Account) :
    (l.foldl (fun acc fw => acc.setField fw.1 fw.2) a).status = a.status := by
  induction l generalizing a with
  | nil => rfl
  | cons x xs ih => exact (ih (a.setField x.1 x.2)).trans (setField_status a x.1 x.2)

/-- Applying a batch of column writes never touches `last_check_at`. -/
theorem foldl_setField_lastCheckAt (l : List (AccField × AccVal)) (a : Account) :
    (l.foldl (fun acc fw => acc.setField fw.1 fw.2) a).lastCheckAt = a.lastCheckAt := by
  induction l generalizing a with
  | nil => rfl
  | cons x xs ih => exact (ih (a.setField x.1 x.2)).trans (setField_lastCheckAt a x.1 x.2)

/-- Concrete account used to refute C8 as stated. -/
def c8Account : Account :=
  { id := 1, name := "acc", sessdata := "sd", biliJct := "jct", buvid3 := "b3",
    buvid4 := "b4", dedeuseridCkmd5 := "oldmd5", refreshToken := "rt",
    groupTag := "default", isActive := true, status := "valid",
    lastCheckAt := some "2026-01-01T00:00:00Z" }

/-- **C8 counterexample**: updating the cookie MD5 checksum
(`dedeuserid_ckmd5`) — a credential field — to a different value does *not*
reset the status to `unknown` and does *not* clear the last-check
timestamp: `update_account` only flags resets for `sessdata`, `bili_jct`
and the `buvid*` fields. -/
theorem C8_counterexample :
    (update_account c8Account [(.dedeuseridCkmd5F, some (.vs "newmd5"))]).map
        (fun r => (r.dedeuseridCkmd5, r.status, r.lastCheckAt)) =
      some ("newmd5", "valid", some "2026-01-01T00:00:00Z") := by decide

/-- **C8 amended**: an account update that changes the session token
(`sessdata`), the CSRF token (`bili_jct`) or a device token (`buvid3`,
`buvid4`) resets the status to `unknown` and clears the last-check timestamp
in the same atomic update; an update that changes none of those four fields
(for example one touching only the cookie MD5 checksum or the refresh token)
leaves status and last-check unchanged. -/
theorem C8_amended_credential_reset (a : Account)
    (fields : List (AccField × Option AccVal)) (b : Account)
    (hb : update_account a fields = some b) :
    ((∃ f w, (f, some w) ∈ fields ∧
        (f = .sessdataF ∨ f = .biliJctF ∨ f = .buvid3F ∨ f = .buvid4F) ∧
        a.getField f ≠ w) →
      b.status = "unknown" ∧ b.lastCheckAt = none)
    ∧ ((∀ f w, (f, some w) ∈ fields →
        (f = .sessdataF ∨ f = .biliJctF ∨ f = .buvid3F ∨ f = .buvid4F) →
        a.getField f = w) →
      b.status = a.status ∧ b.lastCheckAt = a.lastCheckAt) := by
  unfold update_account at hb
  by_cases hemp : (appliedUpdates fields).isEmpty
  · rw [if_pos hemp] at hb
    exact absurd hb (by simp)
  · rw [if_neg hemp] at hb
    constructor
    · rintro ⟨f, w, hmem, hf, hne⟩
      have hany : (appliedUpdates fields).any
          (fun fw => fw.1.triggersStatusReset && (a.getField fw.1 != fw.2)) = true := by
        refine List.any_eq_true.mpr ⟨(f, w), ?_, ?_⟩
        · exact List.mem_filterMap.mpr ⟨(f, some w), hmem, rfl⟩
        · simp [(triggersStatusReset_iff f).mpr hf, bne_iff_ne, hne]
      rw [if_pos hany] at hb
      cases hb
      exact ⟨rfl, rfl⟩
    · intro hall
      have hany : (appliedUpdates fields).any
          (fun fw => fw.1.triggersStatusReset && (a.getField fw.1 != fw.2)) = false := by
        rw [List.any_eq_false]
        intro fw hfw
        rcases List.mem_filterMap.mp hfw with ⟨fv, hfv, heq⟩
        rcases fv with ⟨f0, w0⟩
        cases w0 with
        | none => simp at heq
        | some w1 =>
          simp only [Option.map_some] at heq
          cases heq
          simp only [Bool.and_eq_true, bne_iff_ne, ne_eq, not_and, Decidable.not_not]
          intro htrig
          exact hall f0 w1 hfv ((triggersStatusReset_iff f0).mp htrig)
      rw [if_neg (by simp [hany])] at hb
      cases hb
      exact ⟨foldl_setField_status _ a, foldl_setField_lastCheckAt _ a⟩

/-- The row produced by the C8 witness update. -/
def c8UpdatedAccount : Account :=
  { c8Account with sessdata := "new", status := "unknown", lastCheckAt := none }

/-- Witness for the amended C8: changing `sessdata` resets status and
last-check in the same update. -/
theorem C8_amended_credential_reset_witness :
    c8UpdatedAccount.status = "unknown" ∧ c8UpdatedAccount.lastCheckAt = none :=
  (C8_amended_credential_reset c8Account [(.sessdataF, some (.vs "new"))]
      c8UpdatedAccount (by decide)).1
    ⟨.sessdataF, .vs "new", by decide, Or.inl rfl, by decide⟩

/-! ## Inbox poller: `autoreply_polling.run_autoreply_poll_cycle` (C5)

One account's session sweep is embedded as `processSessions`.  The
`autoreply_state` table rows for the account are the function
`ReplyState : Int → Option Int` (talker id to `last_msg_ts`); the send
response code comes from an oracle. -/

/-- Persistent state touched by the dispatch path. -/
structure ReportDB where
  targets : List Target
  accounts : List Account
  logs : List ReportLogRow
  deriving Repr, DecidableEq

/-- Observable effects of the dispatch path. -/
inductive DispatchEvent where
  | platformCall (accountId : Nat)
  | auditInsert
  | cooldownSleep (accountId : Nat)
  | rateLimitSleep (accountId : Nat)
  | humanDelaySleep
  deriving Repr, DecidableEq

/-- Oracles of one dispatch run: successive monotonic-clock readings,
successive `random.uniform` draws, the `get_video_info` answer, the
platform response per (account, attempt), and the initial state of the
module-global cooldown ledger. -/
structure DispatchEnv where
  clock : Nat → Int
  uniform : Nat → Int
  videoInfoCode : Option Int
  videoInfoAid : Int
  clientResp : Nat → Nat → ClientCall → Envelope
  initialCooldown : Nat → Option Int

/-- Mutable state of the account sweep. -/
structure SweepState where
  cooldown : Nat → Option Int
  clockIdx : Nat
  rngIdx : Nat
  logs : List ReportLogRow
  events : List DispatchEvent

/-- One `time.monotonic()` reading. -/
def SweepState.readClock (s : SweepState) (env : DispatchEnv) : Int × SweepState :=
  (env.clock s.clockIdx, { s with clockIdx := s.clockIdx + 1 })

/-- One `random.uniform` draw. -/
def SweepState.drawUniform (s : SweepState) (env : DispatchEnv) : Int × SweepState :=
  (env.uniform s.rngIdx, { s with rngIdx := s.rngIdx + 1 })

/-- `_cleanup_stale_cooldowns`: evict ledger entries older than one hour. -/
def cleanupStaleCooldowns (env : DispatchEnv) (s0 : SweepState) : SweepState :=
  let r := s0.readClock env
  { r.2 with cooldown := fun idv =>
      match r.2.cooldown idv with
      | some ts => if r.1 - ts > 3600 then none else some ts
      | none => none }

/-- `ACCOUNT_COOLDOWN` (seconds between one account's reports). -/
def ACCOUNT_COOLDOWN : Int := 90

/-- The `for attempt in range(1 + max_rate_retries)` loop body of the sweep
(`max_rate_retries = 2`): cooldown wait, one executor invocation with its
audit insert, ledger stamp, and on code 12019 with attempts remaining a
penalty ledger stamp plus `90 + U(0,15)` sleep before retrying the same
account. -/
def attemptLoop (env : DispatchEnv) (t : Target) (a : Account)
    (attempt : Nat) (s0 : SweepState) : ReportResult × SweepState :=
  let s1 := cleanupStaleCooldowns env s0
  let lastTs := (s1.cooldown a.id).getD 0
  let r1 := s1.readClock env
  let s2 :=
    if r1.1 - lastTs < ACCOUNT_COOLDOWN then
      { r1.2 with events := r1.2.events ++ [.cooldownSleep a.id] }
    else r1.2
  let rl := execute_single_report t a env.videoInfoCode env.videoInfoAid
    (env.clientResp a.id attempt)
  let s3 := { s2 with
    logs := s2.logs ++ [rl.2],
    events := s2.events ++ [DispatchEvent.platformCall a.id, DispatchEvent.auditInsert] }
  let r2 := s3.readClock env
  let s4 := { r2.2 with cooldown := fun idv =>
      if idv == a.id then some r2.1 else r2.2.cooldown idv }
  let respCode := rl.1.response.bind Envelope.code
  if h : respCode = some 12019 ∧ attempt < 2 then
    let r3 := s4.readClock env
    let r4 := r3.2.drawUniform env
    let wait := 90 + r4.1
    let s5 := { r4.2 with
      cooldown := fun idv => if idv == a.id then some (r3.1 + wait) else r4.2.cooldown idv,
      events := r4.2.events ++ [.rateLimitSleep a.id] }
    attemptLoop env t a (attempt + 1) s5
  else
    (rl.1, s4)
termination_by 2 - attempt
decreasing_by omega

/-- The `for account in accounts` sweep: run the attempt loop, record the
result, exit early on the first success, otherwise sleep a humanized delay
before the next account. -/
def sweepAccounts (env : DispatchEnv) (t : Target) :
    List Account → SweepState → List ReportResult → List ReportResult × SweepState
  | [], s, results => (results, s)
  | a :: rest, s, results =>
    let rs := attemptLoop env t a 0 s
    let results1 := results ++ [rs.1]
    if rs.1.success then (results1, rs.2)
    else
      sweepAccounts env t rest
        { rs.2 with events := rs.2.events ++ [.humanDelaySleep] } results1

/-- `MAX_RETRY_COUNT` of `execute_report_for_target`. -/
def MAX_RETRY_COUNT : Nat := 3

/-- `target_service.update_target_status`. -/
def update_target_status (targets : List Target) (tid : Nat) (st : String) :
    List Target :=
  targets.map (fun t => if t.id == tid then { t with status := st } else t)

/-- `target_service.increment_retry_and_set_status`. -/
def increment_retry_and_set_status (targets : List Target) (tid : Nat) (st : String) :
    List Target :=
  targets.map (fun t =>
    if t.id == tid then { t with status := st, retryCount := t.retryCount + 1 } else t)

/-- `SELECT * FROM accounts WHERE is_active = 1 AND status = 'valid'`
(the `get_active_accounts` projection). -/
def get_active_accounts (accounts : List Account) : List Account :=
  accounts.filter (fun a => a.isActive && a.status == "valid")

/-- The value returned by `execute_report_for_target` together with the
database rows and effects it produced. -/
structure DispatchOutcome where
  results : Option (List ReportResult)
  error : Option String
  db : ReportDB
  events : List DispatchEvent
  deriving Repr, DecidableEq

/-- `report_service.execute_report_for_target(target_id, account_ids)`:
look up the target; enforce the retry-count circuit breaker; select the
requested (or all) active-and-valid accounts; shuffle; sweep; then
increment the retry counter and set the terminal status.  `shuffle` stands
for `random.shuffle`, an arbitrary reordering supplied by the caller. -/
def execute_report_for_target (env : DispatchEnv) (db : ReportDB)
    (shuffle : List Account → List Account) (targetId : Nat)
    (accountIds : List Nat) : DispatchOutcome :=
  match db.targets.find? (fun t => t.id == targetId) with
  | none => { results := none, error := some "Target not found", db := db, events := [] }
  | some target =>
    if MAX_RETRY_COUNT ≤ target.retryCount then
      { results := none, error := some "Target exceeded max retry count (3)",
        db := { db with targets := update_target_status db.targets targetId "failed" },
        events := [] }
    else
      let accounts :=
        if accountIds.isEmpty then get_active_accounts db.accounts
        else db.accounts.filter (fun a =>
          accountIds.contains a.id && a.isActive && a.status == "valid")
      if accounts.isEmpty then
        { results := none, error := some "No active accounts available", db := db,
          events := [] }
      else
        let s0 : SweepState := { cooldown := env.initialCooldown, clockIdx := 0, rngIdx := 0, logs := [], events := [] }
        let out := sweepAccounts env target (shuffle accounts) s0 []
        let anySuccess := out.1.any (·.success)
        let finalStatus := if anySuccess then "completed" else "failed"
        { results := some out.1, error := none,
          db := { db with
            targets := increment_retry_and_set_status db.targets targetId finalStatus,
            logs := db.logs ++ out.2.logs },
          events := out.2.events }

/-- **C2**: when the target's retry counter is already at `MAX_RETRY_COUNT`
(3) at the start of the single-target dispatch, the dispatch is rejected
before the account sweep: no platform call, no audit row and no sleep
happens (empty event trace, audit log unchanged), the executor is never
invoked (`results = none`), and the target's status is set to `failed`
with its retry counter left unchanged. -/
theorem C2_retry_cap (env : DispatchEnv) (db : ReportDB)
    (shuffle : List Account → List Account) (tid : Nat) (accountIds : List Nat)
    (t : Target) (ht : db.targets.find? (fun x => x.id == tid) = some t)
    (hr : 3 ≤ t.retryCount) :
    execute_report_for_target env db shuffle tid accountIds =
      { results := none, error := some "Target exceeded max retry count (3)",
        db := { db with targets := update_target_status db.targets tid "failed" },
        events := [] }
    ∧ (execute_report_for_target env db shuffle tid accountIds).events = []
    ∧ (execute_report_for_target env db shuffle tid accountIds).db.logs = db.logs
    ∧ (execute_report_for_target env db shuffle tid accountIds).results = none
    ∧ (execute_report_for_target env db shuffle tid accountIds).db.targets.map
        Target.retryCount = db.targets.map Target.retryCount
    ∧ ∀ r ∈ (execute_report_for_target env db shuffle tid accountIds).db.targets,
        r.id = tid → r.status = "failed" := by
  have heq : execute_report_for_target env db shuffle tid accountIds =
      { results := none, error := some "Target exceeded max retry count (3)",
        db := { db with targets := update_target_status db.targets tid "failed" },
        events := [] } := by
    unfold execute_report_for_target
    rw [ht]
    exact if_pos hr
  refine ⟨heq, by rw [heq], by rw [heq], by rw [heq], ?_, ?_⟩
  · rw [heq]
    show (update_target_status db.targets tid "failed").map Target.retryCount
      = db.targets.map Target.retryCount
    unfold update_target_status
    rw [List.map_map]
    refine List.map_congr_left ?_
    intro x _
    by_cases hxid : x.id = tid <;> simp [hxid]
  · intro r hr' hrid
    rw [heq] at hr'
    simp only [update_target_status, List.mem_map] at hr'
    rcases hr' with ⟨x, hx, hxr⟩
    by_cases hxid : x.id == tid
    · rw [if_pos hxid] at hxr
      rw [← hxr]
    · rw [if_neg hxid] at hxr
      subst hxr
      exact absurd (beq_iff_eq.mpr hrid) (by simpa using hxid)

/-- Concrete oracles used in the C2 witness. -/
def c2Env : DispatchEnv :=
  { clock := fun _ => 0, uniform := fun _ => 0, videoInfoCode := none,
    videoInfoAid := 0, clientResp := fun _ _ _ => { code := none, message := none },
    initialCooldown := fun _ => none }

/-- Concrete exhausted target used in the C2 witness. -/
def c2Target : Target :=
  { id := 3, ttype := "video", identifier := "BVx", aid := some 1,
    reasonId := some 1, reasonContentId := none, reasonText := none,
    status := "pending", retryCount := 3 }

/-- Concrete database used in the C2 witness. -/
def c2DB : ReportDB := { targets := [c2Target], accounts := [], logs := [] }

/-- Witness for C2: dispatching a target whose retry counter is already 3
produces no events and no results. -/
theorem C2_retry_cap_witness :
    (execute_report_for_target c2Env c2DB id 3 []).events = []
    ∧ (execute_report_for_target c2Env c2DB id 3 []).results = none := by
  have h := C2_retry_cap c2Env c2DB id 3 [] c2Target (by decide) (by decide)
  exact ⟨h.2.1, h.2.2.2.1⟩

/-! ## Default auto-reply upsert: `autoreply_service.upsert_default_reply` (C6)

Inside one serialized transaction the procedure selects all null-keyword
rows ordered by id, updates the smallest-id row (or inserts a fresh row when
none exists), and deletes the remaining duplicates. -/

/-- A row of `autoreply_config`. -/
structure ARRow where
  id : Nat
  keyword : Option String
  response : String
  priority : Int
  isActive : Bool
  deriving Repr, DecidableEq

/-- Ordering of rows by id (the `ORDER BY id ASC`). -/
def rowIdLe (a b : ARRow) : Prop := a.id ≤ b.id

instance : DecidableRel rowIdLe := fun a b => Nat.decLe a.id b.id

instance : IsTotal ARRow rowIdLe := ⟨fun a b => Nat.le_total a.id b.id⟩

instance : IsTrans ARRow rowIdLe := ⟨fun _ _ _ h1 h2 => Nat.le_trans h1 h2⟩

/-- `SELECT * FROM autoreply_config WHERE keyword IS NULL ORDER BY id ASC`. -/
def nullRowsSorted (table : List ARRow) : List ARRow :=
  List.insertionSort rowIdLe (table.filter (fun r => r.keyword.isNone))

/-- SQLite `lastrowid` of a fresh INSERT (one more than the largest id). -/
def freshId (table : List ARRow) : Nat :=
  (table.map ARRow.id).foldl max 0 + 1

/-- `autoreply_service.upsert_default_reply(response, priority)` acting on
the `autoreply_config` table: update the smallest-id null-keyword row
(setting `is_active = 1`), delete duplicate null-keyword rows, or insert a
fresh default row when none exists. -/
def upsert_default_reply (table : List ARRow) (resp : String) (prio : Int) :
    List ARRow :=
  match nullRowsSorted table with
  | [] =>
    table ++ [⟨freshId table, none, resp, prio, true⟩]
  | first :: dups =>
    let updated := table.map (fun r =>
      if r.id == first.id then { r with response := resp, priority := prio, isActive := true }
      else r)
    updated.filter (fun r => !decide (r.id ∈ dups.map ARRow.id))

/-- Iterated upserts (the N calls of the round-trip property). -/
def upsertN (table : List ARRow) (calls : List (String × Int)) : List ARRow :=
  calls.foldl (fun tb c => upsert_default_reply tb c.1 c.2) table

/-- Filtering a mapped list when the map preserves the predicate. -/
theorem filter_map_of_pres {α : Type} (l : List α) (u : α → α) (p : α → Bool)
    (hp : ∀ a, p (u a) = p a) :
    (l.map u).filter p = (l.filter p).map u := by
  induction l with
  | nil => rfl
  | cons a t ih =>
    by_cases h : p a = true
    · simp [List.filter_cons, hp, h, ih]
    · simp only [Bool.not_eq_true] at h
      simp [List.filter_cons, hp, h, ih]

/-- The seed is bounded by a running maximum. -/
theorem init_le_foldl_max (l : List Nat) (init : Nat) : init ≤ l.foldl max init := by
  induction l generalizing init with
  | nil => exact le_refl _
  | cons b t ih => exact le_trans (le_max_left init b) (ih (max init b))

/-- Every element is bounded by a running maximum. -/
theorem le_foldl_max : ∀ (l : List Nat) (init x : Nat), x ∈ l → x ≤ l.foldl max init
  | [], _, _, hx => absurd hx (List.not_mem_nil _)
  | a :: t, init, x, hx => by
    rcases List.mem_cons.mp hx with h | h
    · subst h
      exact le_trans (le_max_right init x) (init_le_foldl_max t (max init x))
    · exact le_foldl_max t (max init a) x h

/-- Ids of the table stay distinct across an upsert. -/
theorem idsNodup_upsert (table : List ARRow) (h : (table.map ARRow.id).Nodup)
    (resp : String) (prio : Int) :
    ((upsert_default_reply table resp prio).map ARRow.id).Nodup := by
  unfold upsert_default_reply
  cases hex : nullRowsSorted table with
  | nil =>
    rw [List.map_append]
    refine List.Nodup.append h (by simp) ?_
    intro x hx hy
    simp only [List.map_cons, List.map_nil, List.mem_singleton] at hy
    subst hy
    simp only [List.mem_map] at hx
    rcases hx with ⟨r, hr, hrid⟩
    have : r.id ≤ (table.map ARRow.id).foldl max 0 :=
      le_foldl_max _ 0 r.id (List.mem_map.mpr ⟨r, hr, rfl⟩)
    rw [hrid] at this
    simp [freshId] at this
  | cons first dups =>
    have hids : (table.map (fun r =>
        if r.id == first.id then { r with response := resp, priority := prio, isActive := true }
        else r)).map ARRow.id = table.map ARRow.id := by
      rw [List.map_map]
      refine List.map_congr_left ?_
      intro r _
      by_cases hr : r.id = first.id <;> simp [hr]
    have hsub : List.Sublist
        (((table.map (fun r =>
          if r.id == first.id then { r with response := resp, priority := prio, isActive := true }
          else r)).filter (fun r => !decide (r.id ∈ dups.map ARRow.id))).map ARRow.id)
        ((table.map (fun r =>
          if r.id == first.id then { r with response := resp, priority := prio, isActive := true }
          else r)).map ARRow.id) :=
      List.Sublist.map ARRow.id (List.filter_sublist _)
    exact List.Sublist.nodup (hids ▸ hsub) h

/-- The core of C6, non-empty case: the upsert updates exactly the
smallest-id null-keyword row, deletes the duplicates, and leaves that row
as the unique null-keyword row. -/
theorem upsert_updates_min (table : List ARRow) (h : (table.map ARRow.id).Nodup)
    (resp : String) (prio : Int) (first : ARRow) (dups : List ARRow)
    (hex : nullRowsSorted table = first :: dups) :
    (upsert_default_reply table resp prio).filter (fun r => r.keyword.isNone) =
      [{ id := first.id, keyword := none, response := resp, priority := prio,
         isActive := true }]
    ∧ (∀ r ∈ table, r.keyword = none → first.id ≤ r.id)
    ∧ (∀ r ∈ upsert_default_reply table resp prio, r.id ∉ dups.map ARRow.id) := by
  have hperm : List.Perm (table.filter (fun r => r.keyword.isNone)) (first :: dups) := by
    have hp : List.Perm (nullRowsSorted table) (table.filter (fun r => r.keyword.isNone)) :=
      List.perm_insertionSort rowIdLe (table.filter (fun r => r.keyword.isNone))
    rw [hex] at hp
    exact hp.symm
  have hfiltNodup : ((first :: dups).map ARRow.id).Nodup := by
    refine (hperm.map ARRow.id).nodup ?_
    exact List.Sublist.nodup ((List.filter_sublist _).map ARRow.id) h
  have hfirstNotDup : first.id ∉ dups.map ARRow.id := by
    simpa using (List.nodup_cons.mp hfiltNodup).1
  have hfirstNull : first.keyword = none := by
    have : first ∈ table.filter (fun r => r.keyword.isNone) :=
      hperm.symm.subset (List.mem_cons_self first dups)
    have := List.of_mem_filter this
    exact Option.isNone_iff_eq_none.mp (by simpa using this)
  set u : ARRow → ARRow := fun r =>
    if r.id == first.id then { r with response := resp, priority := prio, isActive := true }
    else r with hu
  set q : ARRow → Bool := fun r => !decide (r.id ∈ dups.map ARRow.id) with hq
  have hupserteq : upsert_default_reply table resp prio = (table.map u).filter q := by
    unfold upsert_default_reply
    rw [hex]
  have hPq : ∀ a, (fun r => r.keyword.isNone) (u a) = (fun r => r.keyword.isNone) a := by
    intro a
    by_cases ha : a.id = first.id <;> simp [hu, ha]
  have hqu : ∀ a, q (u a) = q a := by
    intro a
    by_cases ha : a.id = first.id
    · simp [hu, hq, ha]
    · simp [hu, ha]
  refine ⟨?_, ?_, ?_⟩
  · -- the null rows of the result
    have step1 : (upsert_default_reply table resp prio).filter (fun r => r.keyword.isNone)
        = ((table.filter (fun r => r.keyword.isNone)).filter q).map u := by
      rw [hupserteq]
      rw [List.filter_comm]
      rw [filter_map_of_pres _ u _ hPq]
      rw [filter_map_of_pres _ u q hqu]
    have step2 : List.Perm ((table.filter (fun r => r.keyword.isNone)).filter q) ((first :: dups).filter q) :=
      hperm.filter q
    have step3 : (first :: dups).filter q = [first] := by
      rw [List.filter_cons]
      have hqfirst : q first = true := by
        have hdec : decide (first.id ∈ dups.map ARRow.id) = false :=
          decide_eq_false hfirstNotDup
        rw [hq]
        show (!decide (first.id ∈ dups.map ARRow.id)) = true
        simp only [hdec, Bool.not_false]
      rw [if_pos hqfirst]
      have : dups.filter q = [] := by
        rw [List.filter_eq_nil_iff]
        intro d hd
        have hdec : decide (d.id ∈ dups.map ARRow.id) = true :=
          decide_eq_true (List.mem_map.mpr ⟨d, hd, rfl⟩)
        rw [hq]
        show ¬(!decide (d.id ∈ dups.map ARRow.id)) = true
        simp only [hdec, Bool.not_true]
        exact Bool.false_ne_true
      rw [this]
    have step4 : (table.filter (fun r => r.keyword.isNone)).filter q = [first] :=
      List.perm_singleton.mp (step3 ▸ step2)
    rw [step1, step4]
    have hufirst : u first = (⟨first.id, none, resp, prio, true⟩ : ARRow) := by
      simp [hu, hfirstNull]
    rw [List.map_singleton, hufirst]
  · -- first has the smallest id among null rows
    intro r hr hnull
    have hrmem : r ∈ first :: dups :=
      hperm.subset (List.mem_filter.mpr ⟨hr, by simp [hnull]⟩)
    rcases List.mem_cons.mp hrmem with h1 | h1
    · subst h1
      exact le_refl _
    · have hsorted : List.Sorted rowIdLe (first :: dups) := by
        have hs : List.Sorted rowIdLe (nullRowsSorted table) :=
          List.sorted_insertionSort rowIdLe (table.filter (fun r => r.keyword.isNone))
        rwa [hex] at hs
      exact (List.sorted_cons.mp hsorted).1 r h1
  · -- the duplicates are gone
    intro r hr
    rw [hupserteq] at hr
    have := List.of_mem_filter hr
    simpa [hq] using this

/-- The table after any upsert has exactly one null-keyword row, carrying
the upserted response and priority. -/
theorem nulls_upsert (table : List ARRow) (h : (table.map ARRow.id).Nodup)
    (resp : String) (prio : Int) :
    ∃ i, (upsert_default_reply table resp prio).filter (fun r => r.keyword.isNone) =
      [{ id := i, keyword := none, response := resp, priority := prio,
         isActive := true }] := by
  cases hex : nullRowsSorted table with
  | nil =>
    refine ⟨freshId table, ?_⟩
    have hnone : table.filter (fun r => r.keyword.isNone) = [] := by
      have hp : List.Perm (nullRowsSorted table) (table.filter (fun r => r.keyword.isNone)) :=
        List.perm_insertionSort rowIdLe (table.filter (fun r => r.keyword.isNone))
      rw [hex] at hp
      exact hp.symm.eq_nil
    unfold upsert_default_reply
    rw [hex, List.filter_append, hnone]
    rfl
  | cons first dups =>
    exact ⟨first.id, (upsert_updates_min table h resp prio first dups hex).1⟩

/-- **C6**: upserting the default reply N times (N ≥ 1, any responses, any
initial table with distinct row ids) leaves exactly one null-keyword row,
whose response and priority equal the last call's arguments; when
null-keyword rows exist, the smallest-id one is updated and the duplicate
null-keyword rows are deleted. -/
theorem C6_default_reply_upsert (table : List ARRow)
    (h : (table.map ARRow.id).Nodup) :
    (∀ (calls : List (String × Int)) (resp : String) (prio : Int),
      calls.getLast? = some (resp, prio) →
      ∃ i, (upsertN table calls).filter (fun r => r.keyword.isNone) =
        [{ id := i, keyword := none, response := resp, priority := prio,
           isActive := true }])
    ∧ (∀ (resp : String) (prio : Int) (first : ARRow) (dups : List ARRow),
      nullRowsSorted table = first :: dups →
      (upsert_default_reply table resp prio).filter (fun r => r.keyword.isNone) =
        [{ id := first.id, keyword := none, response := resp, priority := prio,
           isActive := true }]
      ∧ (∀ r ∈ table, r.keyword = none → first.id ≤ r.id)
      ∧ (∀ r ∈ upsert_default_reply table resp prio, r.id ∉ dups.map ARRow.id)) := by
  constructor
  · have main : ∀ (calls : List (String × Int)) (tb : List ARRow),
        (tb.map ARRow.id).Nodup → ∀ (resp : String) (prio : Int),
        calls.getLast? = some (resp, prio) →
        ∃ i, (upsertN tb calls).filter (fun r => r.keyword.isNone) =
          [{ id := i, keyword := none, response := resp, priority := prio,
             isActive := true }] := by
      intro calls
      induction calls with
      | nil => intro tb _ resp prio hlast; simp at hlast
      | cons c rest ih =>
        intro tb htb resp prio hlast
        cases rest with
        | nil =>
          simp only [List.getLast?_singleton, Option.some.injEq] at hlast
          subst hlast
          simpa [upsertN] using nulls_upsert tb htb resp prio
        | cons c2 rest2 =>
          have hlast2 : (c2 :: rest2).getLast? = some (resp, prio) := by
            rwa [List.getLast?_cons_cons] at hlast
          have := ih (upsert_default_reply tb c.1 c.2)
            (idsNodup_upsert tb htb c.1 c.2) resp prio hlast2
          simpa [upsertN] using this
    exact fun calls resp prio hlast => main calls table h resp prio hlast
  · intro resp prio first dups hex
    exact upsert_updates_min table h resp prio first dups hex

/-- Initial table used in the C6 witness: two null-keyword duplicates and a
keyword rule. -/
def c6Table : List ARRow :=
  [{ id := 1, keyword := none, response := "old1", priority := -1, isActive := true },
   { id := 2, keyword := some "hi", response := "hey", priority := 5, isActive := true },
   { id := 3, keyword := none, response := "old2", priority := -1, isActive := false }]

/-- Witness for C6: two upserts over a table with duplicate null rows leave
exactly one null row, with the last response, on the smallest id. -/
theorem C6_default_reply_upsert_witness :
    ∃ i, (upsertN c6Table [("r1", -1), ("r2", -1)]).filter
        (fun r => r.keyword.isNone) =
      [{ id := i, keyword := none, response := "r2", priority := -1,
         isActive := true }] :=
  (C6_default_reply_upsert c6Table (by decide)).1 [("r1", -1), ("r2", -1)] "r2" (-1) (by decide)

/-! ## WBI signing: `core/wbi_sign.py` (C7)

Python strings are embedded as `List Char` (code points).  `urlencode` with
its default `quote_plus` is embedded byte-exactly: safe characters pass
through, a space becomes `+`, every other character is percent-encoded per
UTF-8 byte with uppercase hex digits.  The MD5 step is an abstract function
parameter `md5hex`: the claims about the signature concern the *signed
input string* it is applied to. -/

/-- The fixed 64-index permutation of `BilibiliSign.MIXIN_KEY_ENC_TAB`. -/
def MIXIN_KEY_ENC_TAB : List Nat :=
  [46, 47, 18, 2, 53, 8, 23, 32, 15, 50, 10, 31, 58, 3, 45, 35, 27, 43, 5, 49,
   33, 9, 42, 19, 29, 28, 14, 39, 12, 38, 41, 13, 37, 48, 7, 16, 24, 55, 40,
   61, 26, 17, 0, 1, 60, 51, 30, 4, 22, 25, 54, 21, 56, 59, 6, 63, 57, 62, 11,
   36, 20, 34, 44, 52]

/-- The characters of `raw` at the given indices: `raw[i] for i in is`,
where an out-of-range index raises `IndexError` (embedded as `none`). -/
def charsAt (raw : List Char) : List Nat → Option (List Char)
  | [] => some []
  | i :: is =>
    match raw.get? i, charsAt raw is with
    | some c, some cs => some (c :: cs)
    | _, _ => none

/-- `get_mixin_key`: permute `img_key ++ sub_key` by the table and truncate
to 32 characters; indexing raises `IndexError` (embedded as `none`) whenever
the combined keys are shorter than 64 characters, the table's index range. -/
def getMixinKey (imgKey subKey : String) : Option String :=
  (charsAt (imgKey ++ subKey).toList MIXIN_KEY_ENC_TAB).map
    (fun cs => String.mk (cs.take 32))

/-- The `BilibiliSign` constructor: an empty key yields an empty mixin key
without indexing; otherwise the mixin key is computed (and may raise). -/
def bilibiliSignMixinKey (imgKey subKey : String) : Option String :=
  if imgKey = "" ∨ subKey = "" then some "" else getMixinKey imgKey subKey

/-- The stripped character class of `_filter_value` (`"!'()*"`). -/
def stripChars : List Char := ['!', '\'', '(', ')', '*']

/-- `_filter_value`: remove every occurrence of the stripped characters. -/
def filterValue (v : List Char) : List Char :=
  v.filter (fun c => !stripChars.contains c)

/-- The always-safe characters of `urllib.parse.quote` (letters, digits and
`_.-~`), decided on code points. -/
def isUrlSafe (c : Char) : Bool :=
  (97 ≤ c.toNat && c.toNat ≤ 122) || (65 ≤ c.toNat && c.toNat ≤ 90) ||
    (48 ≤ c.toNat && c.toNat ≤ 57) || c.toNat == 95 || c.toNat == 46 ||
    c.toNat == 45 || c.toNat == 126

/-- Uppercase hex digit (for `%XX` escapes). -/
def hexDigit : Nat → Char
  | 0 => '0' | 1 => '1' | 2 => '2' | 3 => '3' | 4 => '4'
  | 5 => '5' | 6 => '6' | 7 => '7' | 8 => '8' | 9 => '9'
  | 10 => 'A' | 11 => 'B' | 12 => 'C' | 13 => 'D' | 14 => 'E' | 15 => 'F'
  | _ => '0'

/-- UTF-8 bytes of a code point. -/
def utf8Bytes (n : Nat) : List Nat :=
  if n < 128 then [n]
  else if n < 2048 then [192 + n / 64, 128 + n % 64]
  else if n < 65536 then [224 + n / 4096, 128 + (n / 64) % 64, 128 + n % 64]
  else [240 + n / 262144, 128 + (n / 4096) % 64, 128 + (n / 64) % 64, 128 + n % 64]

/-- One percent-escaped byte. -/
def percentByte (b : Nat) : List Char := ['%', hexDigit (b / 16), hexDigit (b % 16)]

/-- `quote_plus` on one character. -/
def quoteChar (c : Char) : List Char :=
  if isUrlSafe c then [c]
  else if c == ' ' then ['+']
  else (utf8Bytes c.toNat).flatMap percentByte

/-- `urllib.parse.quote_plus` with `safe=''` on code points. -/
def quotePlus (s : List Char) : List Char := s.flatMap quoteChar

/-- One `k=v` fragment of `urlencode`. -/
def encPair (kv : List Char × List Char) : List Char :=
  quotePlus kv.1 ++ '=' :: quotePlus kv.2

/-- `urllib.parse.urlencode`: `&`-joined `k=v` fragments. -/
def encodeQuery : List (List Char × List Char) → List Char
  | [] => []
  | [kv] => encPair kv
  | kv :: kv2 :: rest => encPair kv ++ '&' :: encodeQuery (kv2 :: rest)

/-- `sorted(params.items())`: Python tuple comparison, keys first and values
as tie-break. -/
def pairLe (a b : List Char × List Char) : Prop :=
  a.1 < b.1 ∨ (a.1 = b.1 ∧ a.2 ≤ b.2)

instance : DecidableRel pairLe := fun a b => by
  unfold pairLe
  infer_instance

instance : IsTotal (List Char × List Char) pairLe := by
  refine ⟨fun a b => ?_⟩
  rcases lt_trichotomy a.1 b.1 with h | h | h
  · exact Or.inl (Or.inl h)
  · rcases le_total a.2 b.2 with h2 | h2
    · exact Or.inl (Or.inr ⟨h, h2⟩)
    · exact Or.inr (Or.inr ⟨h.symm, h2⟩)
  · exact Or.inr (Or.inl h)

instance : IsTrans (List Char × List Char) pairLe := by
  refine ⟨fun a b c hab hbc => ?_⟩
  rcases hab with hab | ⟨hab, hab2⟩
  · rcases hbc with hbc | ⟨hbc, _⟩
    · exact Or.inl (lt_trans hab hbc)
    · exact Or.inl (hbc ▸ hab)
  · rcases hbc with hbc | ⟨hbc, hbc2⟩
    · exact Or.inl (hab ▸ hbc)
    · exact Or.inr ⟨hab.trans hbc, le_trans hab2 hbc2⟩

instance : IsAntisymm (List Char × List Char) pairLe := by
  refine ⟨fun a b hab hba => ?_⟩
  rcases hab with hab | ⟨hab, hab2⟩
  · rcases hba with hba | ⟨hba, _⟩
    · exact absurd (lt_trans hab hba) (lt_irrefl a.1)
    · exact absurd hab (hba ▸ lt_irrefl b.1)
  · rcases hba with hba | ⟨_, hba2⟩
    · exact absurd hba (hab ▸ lt_irrefl a.1)
    · exact Prod.ext hab (le_antisymm hab2 hba2)

/-- `dict(sorted(params.items()))`. -/
def sortPairs (l : List (List Char × List Char)) : List (List Char × List Char) :=
  List.insertionSort pairLe l

/-- Python `params[k] = v` on the embedded association list. -/
def setParam (params : List (List Char × List Char)) (k v : List Char) :
    List (List Char × List Char) :=
  if params.any (fun p => p.1 == k) then
    params.map (fun p => if p.1 == k then (p.1, v) else p)
  else params ++ [(k, v)]

/-- The string `BilibiliSign.sign` feeds to MD5: the key-sorted,
value-stripped, URL-encoded parameter map (with `wts` added) concatenated
with the mixin key. -/
def signInput (mixinKey : List Char) (params : List (List Char × List Char))
    (wts : Int) : List Char :=
  let withWts := setParam params "wts".toList (toString wts).toList
  let sorted := sortPairs withWts
  let filtered := sorted.map (fun p => (p.1, filterValue p.2))
  encodeQuery filtered ++ mixinKey

/-- `BilibiliSign.sign`: add `wts`, then attach `w_rid`, the digest of the
signed input string. -/
def wbiSign (md5hex : List Char → List Char) (mixinKey : List Char)
    (params : List (List Char × List Char)) (wts : Int) :
    List (List Char × List Char) :=
  let withWts := setParam params "wts".toList (toString wts).toList
  setParam withWts "w_rid".toList (md5hex (signInput mixinKey params wts))

/-- **C7 counterexample**: changing one character of one value does *not*
always change the signed input string: replacing the value `"!"` of key
`"a"` by `"'"` (both characters belong to the stripped class `!'()*`)
yields the identical signed input, hence the identical `w_rid` under any
digest function. -/
theorem C7_counterexample :
    signInput [] [("a".toList, "!".toList)] 0 =
      signInput [] [("a".toList, "'".toList)] 0
    ∧ "!".toList ≠ "'".toList := by decide

/-! ### Injectivity of the URL encoding

`quotePlus` is injective: a decoder recovers the byte stream from the
escaped text and the code points from the byte stream. -/

/-- Inverse of `hexDigit` on the sixteen digits, by code-point arithmetic. -/
def hexVal (c : Char) : Option Nat :=
  if 48 ≤ c.toNat && c.toNat ≤ 57 then some (c.toNat - 48)
  else if 65 ≤ c.toNat && c.toNat ≤ 70 then some (c.toNat - 55)
  else none

/-- `hexVal` undoes `hexDigit`. -/
theorem hexVal_hexDigit (d : Nat) (h : d < 16) : hexVal (hexDigit d) = some d := by
  interval_cases d <;> decide

/-- Decoder from `quote_plus` output back to the byte stream. -/
def decBytes : List Char → Option (List Nat)
  | [] => some []
  | c :: rest =>
    if c == '%' then
      match rest with
      | h1 :: h2 :: rest2 =>
        match hexVal h1, hexVal h2, decBytes rest2 with
        | some d1, some d2, some bs => some ((16 * d1 + d2) :: bs)
        | _, _, _ => none
      | _ => none
    else
      match decBytes rest with
      | some bs => some ((if c == '+' then 32 else c.toNat) :: bs)
      | none => none

/-- Unfolding equation of `decBytes` on a cons cell. -/
theorem decBytes_cons (c : Char) (rest : List Char) :
    decBytes (c :: rest) =
      if c == '%' then
        (match rest with
         | h1 :: h2 :: rest2 =>
           (match hexVal h1, hexVal h2, decBytes rest2 with
            | some d1, some d2, some bs => some ((16 * d1 + d2) :: bs)
            | _, _, _ => none)
         | _ => none)
      else
        (match decBytes rest with
         | some bs => some ((if c == '+' then 32 else c.toNat) :: bs)
         | none => none) := by
  rw [decBytes.eq_def]

/-- Numeric facts about the safe characters. -/
theorem isUrlSafe_facts (c : Char) (h : isUrlSafe c = true) :
    c.toNat < 128 ∧ c.toNat ≠ 37 ∧ c.toNat ≠ 43 := by
  unfold isUrlSafe at h
  simp only [Bool.or_eq_true, Bool.and_eq_true, decide_eq_true_eq, beq_iff_eq] at h
  omega

/-- Code points are below 0x110000. -/
theorem char_toNat_lt (c : Char) : c.toNat < 1114112 := by
  have h := c.valid
  unfold UInt32.isValidChar Nat.isValidChar at h
  rcases h with h | ⟨_, h2⟩
  · have hlt : c.val.toNat < 55296 := h
    exact lt_trans hlt (by norm_num)
  · exact h2

/-- UTF-8 bytes of a valid code point are bytes. -/
theorem utf8Bytes_lt (n : Nat) (h : n < 1114112) : ∀ b ∈ utf8Bytes n, b < 256 := by
  unfold utf8Bytes
  split_ifs with h1 h2 h3 <;> intro b hb <;> simp only [List.mem_cons,
    List.mem_singleton, List.not_mem_nil, or_false] at hb
  · omega
  · rcases hb with hb | hb <;> omega
  · rcases hb with hb | hb | hb <;> omega
  · rcases hb with hb | hb | hb | hb <;> omega

/-- `decBytes` consumes a run of percent-escaped bytes. -/
theorem decBytes_flatMap_percent (bs : List Nat) (hb : ∀ b ∈ bs, b < 256)
    (rest : List Char) :
    decBytes (bs.flatMap percentByte ++ rest) =
      (decBytes rest).map (fun tail => bs ++ tail) := by
  induction bs with
  | nil =>
    show decBytes rest = (decBytes rest).map (fun tail => [] ++ tail)
    cases decBytes rest <;> rfl
  | cons b bs ih =>
    have hb0 : b < 256 := hb b (List.mem_cons_self b bs)
    have hbs : ∀ x ∈ bs, x < 256 := fun x hx => hb x (List.mem_cons_of_mem b hx)
    show decBytes ('%' :: hexDigit (b / 16) :: hexDigit (b % 16) ::
      (bs.flatMap percentByte ++ rest)) = _
    rw [decBytes_cons, if_pos (show ('%' == '%') = true from rfl)]
    show (match hexVal (hexDigit (b / 16)), hexVal (hexDigit (b % 16)),
        decBytes (bs.flatMap percentByte ++ rest) with
      | some d1, some d2, some bs2 => some ((16 * d1 + d2) :: bs2)
      | _, _, _ => none) = _
    rw [hexVal_hexDigit (b / 16) (by omega), hexVal_hexDigit (b % 16) (by omega),
      ih hbs]
    cases hrest : decBytes rest with
    | none => rfl
    | some tail =>
      show some ((16 * (b / 16) + b % 16) :: (bs ++ tail)) = _
      have harith : 16 * (b / 16) + b % 16 = b := by omega
      rw [harith]
      rfl

/-- `decBytes` undoes `quoteChar`, producing the UTF-8 bytes of the
character. -/
theorem decBytes_quoteChar (c : Char) (rest : List Char) :
    decBytes (quoteChar c ++ rest) =
      (decBytes rest).map (fun bs => utf8Bytes c.toNat ++ bs) := by
  unfold quoteChar
  by_cases hsafe : isUrlSafe c = true
  · rw [if_pos hsafe]
    obtain ⟨hlt, hpc, hplus⟩ := isUrlSafe_facts c hsafe
    have hcp : (c == '%') = false := by
      refine beq_eq_false_iff_ne.mpr fun hcontra => ?_
      subst hcontra
      exact hpc rfl
    have hcplus : (c == '+') = false := by
      refine beq_eq_false_iff_ne.mpr fun hcontra => ?_
      subst hcontra
      exact hplus rfl
    have hbytes : utf8Bytes c.toNat = [c.toNat] := by
      unfold utf8Bytes
      rw [if_pos hlt]
    show decBytes (c :: rest) = _
    rw [decBytes_cons, hcp, if_neg Bool.false_ne_true]
    cases hrest : decBytes rest with
    | none => rfl
    | some bs2 => simp [hcplus, hbytes]
  · rw [if_neg hsafe]
    by_cases hsp : (c == ' ') = true
    · rw [if_pos hsp]
      have hc : c = ' ' := beq_iff_eq.mp hsp
      subst hc
      show decBytes ('+' :: rest) = _
      rw [decBytes_cons, if_neg (by decide)]
      cases hrest : decBytes rest with
      | none => rfl
      | some bs2 => simp [utf8Bytes]
    · rw [if_neg hsp]
      exact decBytes_flatMap_percent (utf8Bytes c.toNat)
        (utf8Bytes_lt c.toNat (char_toNat_lt c)) rest

/-- `decBytes` undoes `quotePlus`. -/
theorem decBytes_quotePlus (s : List Char) :
    decBytes (quotePlus s) = some (s.flatMap (fun c => utf8Bytes c.toNat)) := by
  induction s with
  | nil => rfl
  | cons c s ih =>
    show decBytes (quoteChar c ++ quotePlus s) = _
    rw [decBytes_quoteChar, ih]
    rfl

/-- Body of `utf8Step` on a cons cell. -/
def utf8StepCons (b : Nat) (rest : List Nat) : Option (Nat × List Nat) :=
  if b < 128 then some (b, rest)
  else if b < 224 then
    match rest with
    | b1 :: rest2 => some ((b - 192) * 64 + (b1 - 128), rest2)
    | [] => none
  else if b < 240 then
    match rest with
    | b1 :: b2 :: rest2 => some ((b - 224) * 4096 + (b1 - 128) * 64 + (b2 - 128), rest2)
    | _ => none
  else
    match rest with
    | b1 :: b2 :: b3 :: rest2 =>
      some ((b - 240) * 262144 + (b1 - 128) * 4096 + (b2 - 128) * 64 + (b3 - 128), rest2)
    | _ => none

/-- One step of a UTF-8 decoder: read one code point and return it with the
remaining bytes. -/
def utf8Step : List Nat → Option (Nat × List Nat)
  | [] => none
  | b :: rest => utf8StepCons b rest

/-- Fuelled UTF-8 decoder driver. -/
def utf8DecodeFuel : Nat → List Nat → Option (List Nat)
  | _, [] => some []
  | 0, _ :: _ => none
  | fuel + 1, b :: rest =>
    match utf8Step (b :: rest) with
    | some (n, rest2) => (utf8DecodeFuel fuel rest2).map (fun t => n :: t)
    | none => none

/-- UTF-8 decoder of a byte list (enough fuel for every byte). -/
def utf8DecodeList (l : List Nat) : Option (List Nat) := utf8DecodeFuel l.length l

/-- `utf8Step` undoes `utf8Bytes`. -/
theorem utf8Step_utf8Bytes (n : Nat) (h : n < 1114112) (rest : List Nat) :
    utf8Step (utf8Bytes n ++ rest) = some (n, rest) := by
  unfold utf8Bytes
  split_ifs with h1 h2 h3
  · show utf8StepCons n rest = _
    unfold utf8StepCons
    rw [if_pos h1]
  · show utf8StepCons (192 + n / 64) ((128 + n % 64) :: rest) = _
    unfold utf8StepCons
    rw [if_neg (by omega), if_pos (by omega)]
    show some ((192 + n / 64 - 192) * 64 + (128 + n % 64 - 128), rest) = _
    have harith : (192 + n / 64 - 192) * 64 + (128 + n % 64 - 128) = n := by omega
    rw [harith]
  · show utf8StepCons (224 + n / 4096) ((128 + n / 64 % 64) :: (128 + n % 64) :: rest) = _
    unfold utf8StepCons
    rw [if_neg (by omega), if_neg (by omega), if_pos (by omega)]
    show some ((224 + n / 4096 - 224) * 4096 + (128 + n / 64 % 64 - 128) * 64 +
      (128 + n % 64 - 128), rest) = _
    have harith : (224 + n / 4096 - 224) * 4096 + (128 + n / 64 % 64 - 128) * 64 +
        (128 + n % 64 - 128) = n := by omega
    rw [harith]
  · show utf8StepCons (240 + n / 262144) ((128 + n / 4096 % 64) :: (128 + n / 64 % 64)
      :: (128 + n % 64) :: rest) = _
    unfold utf8StepCons
    rw [if_neg (by omega), if_neg (by omega), if_neg (by omega)]
    show some ((240 + n / 262144 - 240) * 262144 + (128 + n / 4096 % 64 - 128) * 4096 +
      (128 + n / 64 % 64 - 128) * 64 + (128 + n % 64 - 128), rest) = _
    have harith : (240 + n / 262144 - 240) * 262144 + (128 + n / 4096 % 64 - 128) * 4096 +
        (128 + n / 64 % 64 - 128) * 64 + (128 + n % 64 - 128) = n := by omega
    rw [harith]

/-- `utf8Bytes` is never empty. -/
theorem utf8Bytes_ne_nil (n : Nat) : utf8Bytes n ≠ [] := by
  unfold utf8Bytes
  split_ifs <;> simp

/-- With enough fuel the driver decodes a whole UTF-8 stream. -/
theorem utf8DecodeFuel_stream (s : List Char) (fuel : Nat)
    (hf : (s.flatMap (fun c => utf8Bytes c.toNat)).length ≤ fuel) :
    utf8DecodeFuel fuel (s.flatMap (fun c => utf8Bytes c.toNat)) =
      some (s.map Char.toNat) := by
  induction s generalizing fuel with
  | nil =>
    cases fuel <;> rfl
  | cons c s ih =>
    have hsplit : (c :: s).flatMap (fun c => utf8Bytes c.toNat) =
        utf8Bytes c.toNat ++ s.flatMap (fun c => utf8Bytes c.toNat) := by
      simp [List.flatMap_cons]
    rw [hsplit] at hf ⊢
    have hpos : 0 < (utf8Bytes c.toNat).length :=
      List.length_pos.mpr (utf8Bytes_ne_nil c.toNat)
    obtain ⟨b, bs, hbytes⟩ : ∃ b bs, utf8Bytes c.toNat = b :: bs := by
      cases hbb : utf8Bytes c.toNat with
      | nil => exact absurd hbb (utf8Bytes_ne_nil c.toNat)
      | cons x xs => exact ⟨x, xs, rfl⟩
    cases fuel with
    | zero =>
      exfalso
      rw [List.length_append] at hf
      omega
    | succ f =>
      have hlen : (s.flatMap (fun c => utf8Bytes c.toNat)).length ≤ f := by
        rw [List.length_append] at hf
        omega
      rw [hbytes]
      show (match utf8Step (b :: (bs ++ s.flatMap (fun c => utf8Bytes c.toNat))) with
        | some (n, rest2) => (utf8DecodeFuel f rest2).map (fun t => n :: t)
        | none => none) = _
      have hstep := utf8Step_utf8Bytes c.toNat (char_toNat_lt c)
        (s.flatMap (fun c => utf8Bytes c.toNat))
      rw [hbytes, List.cons_append] at hstep
      rw [hstep]
      show (utf8DecodeFuel f (s.flatMap (fun c => utf8Bytes c.toNat))).map
        (fun t => c.toNat :: t) = _
      rw [ih f hlen]
      rfl

/-- The UTF-8 decoder undoes the byte stream of a string. -/
theorem utf8DecodeList_stream (s : List Char) :
    utf8DecodeList (s.flatMap (fun c => utf8Bytes c.toNat)) =
      some (s.map Char.toNat) :=
  utf8DecodeFuel_stream s _ (le_refl _)

/-- Code points determine the character. -/
theorem char_toNat_injective : Function.Injective Char.toNat := fun _ _ h =>
  Char.ext (UInt32.toNat.inj h)

/-- `quote_plus` is injective. -/
theorem quotePlus_injective : Function.Injective quotePlus := by
  intro x y hxy
  have h1 := decBytes_quotePlus x
  rw [hxy, decBytes_quotePlus y] at h1
  have h2 : x.flatMap (fun c => utf8Bytes c.toNat) =
      y.flatMap (fun c => utf8Bytes c.toNat) := (Option.some.inj h1).symm
  have h3 : some (x.map Char.toNat) = some (y.map Char.toNat) := by
    rw [← utf8DecodeList_stream x, ← utf8DecodeList_stream y, h2]
  exact List.map_injective_iff.mpr char_toNat_injective (Option.some.inj h3)

/-! ### Stability and instability of the signed input string

`keyRepl k v2` replaces the value stored under key `k` by `v2` and leaves
every other pair alone; it describes the one-value mutation of the claim. -/

/-- Replace the value of the pairs whose key is `k` by `v2`. -/
def keyRepl (k v2 : List Char) (p : List Char × List Char) :
    List Char × List Char :=
  if p.1 == k then (p.1, v2) else p

/-- `keyRepl` never changes a key. -/
theorem keyRepl_fst (k v2 : List Char) (p : List Char × List Char) :
    (keyRepl k v2 p).1 = p.1 := by
  unfold keyRepl
  by_cases h : p.1 = k <;> simp [h]

/-- `keyRepl` fixes pairs with another key. -/
theorem keyRepl_of_ne (k v2 : List Char) (p : List Char × List Char)
    (h : p.1 ≠ k) : keyRepl k v2 p = p := by
  simp [keyRepl, h]

/-- `keyRepl` rewrites the matching pair. -/
theorem keyRepl_hit (k v v2 : List Char) : keyRepl k v2 (k, v) = (k, v2) := by
  simp [keyRepl]

/-- Stripping is injective on a one-character change outside the stripped
class: the two filtered values differ. -/
theorem filterValue_ne (u w : List Char) (c1 c2 : Char) (hne : c1 ≠ c2)
    (hstrip : stripChars.contains c1 = false ∨ stripChars.contains c2 = false) :
    filterValue (u ++ c1 :: w) ≠ filterValue (u ++ c2 :: w) := by
  unfold filterValue
  rw [List.filter_append, List.filter_append, List.filter_cons, List.filter_cons]
  by_cases h1 : stripChars.contains c1 = true
  · have h2 : stripChars.contains c2 = false := by
      rcases hstrip with h | h
      · rw [h1] at h
        exact absurd h (by simp)
      · exact h
    have hm1 : c1 ∈ stripChars := by simpa using h1
    have hm2 : c2 ∉ stripChars := by simpa using h2
    rw [if_neg (by simp [hm1]), if_pos (by simp [hm2])]
    intro hcontra
    have htail := List.append_cancel_left hcontra
    have hlen := congrArg List.length htail
    simp at hlen
  · have h1' : stripChars.contains c1 = false := by
      cases hc : stripChars.contains c1
      · rfl
      · exact absurd hc h1
    have hm1 : c1 ∉ stripChars := by simpa using h1'
    by_cases h2 : stripChars.contains c2 = true
    · have hm2 : c2 ∈ stripChars := by simpa using h2
      rw [if_pos (by simp [hm1]), if_neg (by simp [hm2])]
      intro hcontra
      have htail := List.append_cancel_left hcontra
      have hlen := congrArg List.length htail
      simp at hlen
    · have h2' : stripChars.contains c2 = false := by
        cases hc : stripChars.contains c2
        · rfl
        · exact absurd hc h2
      have hm2 : c2 ∉ stripChars := by simpa using h2'
      rw [if_pos (by simp [hm1]), if_pos (by simp [hm2])]
      intro hcontra
      have hcc := List.append_cancel_left hcontra
      injection hcc with hhead _
      exact hne hhead

/-- `any`-over-keys is invariant under `keyRepl`. -/
theorem any_key_map_keyRepl (k v2 k2 : List Char)
    (l : List (List Char × List Char)) :
    (l.map (keyRepl k v2)).any (fun p => p.1 == k2) =
      l.any (fun p => p.1 == k2) := by
  induction l with
  | nil => rfl
  | cons p l ih => simp only [List.map_cons, List.any_cons, ih, keyRepl_fst]

/-- `any`-over-keys is invariant under permutation. -/
theorem any_key_perm (l1 l2 : List (List Char × List Char))
    (hp : List.Perm l1 l2) (k2 : List Char) :
    l1.any (fun p => p.1 == k2) = l2.any (fun p => p.1 == k2) := by
  induction hp with
  | nil => rfl
  | cons x h ih => simp only [List.any_cons, ih]
  | swap x y l =>
    cases hx : (x.1 == k2) <;> cases hy : (y.1 == k2) <;>
      simp [List.any_cons, hx, hy]
  | trans h1 h2 ih1 ih2 => exact ih1.trans ih2

/-- `setParam` maps permutations to permutations. -/
theorem setParam_perm (l1 l2 : List (List Char × List Char))
    (hp : List.Perm l1 l2) (k2 t : List Char) :
    List.Perm (setParam l1 k2 t) (setParam l2 k2 t) := by
  unfold setParam
  rw [any_key_perm l1 l2 hp k2]
  by_cases h : l2.any (fun p => p.1 == k2) = true
  · rw [if_pos h, if_pos h]
    exact hp.map _
  · rw [if_neg h, if_neg h]
    exact hp.append_right _

/-- Setting one key commutes with replacing the value of a *different* key. -/
theorem setParam_map_keyRepl (k v2 k2 t : List Char)
    (l : List (List Char × List Char)) (hkk2 : k ≠ k2) :
    setParam (l.map (keyRepl k v2)) k2 t =
      (setParam l k2 t).map (keyRepl k v2) := by
  unfold setParam
  rw [any_key_map_keyRepl]
  by_cases h : l.any (fun p => p.1 == k2) = true
  · rw [if_pos h, if_pos h, List.map_map, List.map_map]
    refine List.map_congr_left fun p _ => ?_
    show (if (keyRepl k v2 p).1 == k2 then ((keyRepl k v2 p).1, t)
        else keyRepl k v2 p) =
      keyRepl k v2 (if p.1 == k2 then (p.1, t) else p)
    rw [keyRepl_fst]
    by_cases hp : p.1 = k2
    · have hbeq : (p.1 == k2) = true := beq_iff_eq.mpr hp
      have hne2 : (p.1, t).1 ≠ k := by
        show p.1 ≠ k
        rw [hp]
        exact Ne.symm hkk2
      rw [if_pos hbeq, if_pos hbeq, keyRepl_of_ne k v2 (p.1, t) hne2]
    · have hbeq : (p.1 == k2) = false := beq_eq_false_iff_ne.mpr hp
      rw [if_neg (by simp [hbeq]), if_neg (by simp [hbeq])]
  · rw [if_neg h, if_neg h, List.map_append]
    simp only [List.map_cons, List.map_nil]
    rw [keyRepl_of_ne k v2 (k2, t) (Ne.symm hkk2)]

/-- `setParam` keeps the keys duplicate-free. -/
theorem keys_setParam_nodup (k2 t : List Char)
    (l : List (List Char × List Char)) (h : (l.map Prod.fst).Nodup) :
    ((setParam l k2 t).map Prod.fst).Nodup := by
  unfold setParam
  by_cases hany : l.any (fun p => p.1 == k2) = true
  · rw [if_pos hany]
    have hkeys : (l.map (fun p => if p.1 == k2 then (p.1, t) else p)).map
        Prod.fst = l.map Prod.fst := by
      rw [List.map_map]
      refine List.map_congr_left fun p _ => ?_
      by_cases hp : p.1 = k2 <;> simp [hp]
    rw [hkeys]
    exact h
  · rw [if_neg hany, List.map_append]
    have hnot : k2 ∉ l.map Prod.fst := by
      intro hmem
      obtain ⟨p, hp, hpk⟩ := List.mem_map.mp hmem
      exact hany (List.any_eq_true.mpr ⟨p, hp, beq_iff_eq.mpr hpk⟩)
    simp only [List.map_cons, List.map_nil]
    refine h.append (List.nodup_singleton k2) ?_
    intro a ha hb
    rw [List.mem_singleton] at hb
    exact hnot (hb ▸ ha)

/-- Setting one key keeps the pairs of every other key. -/
theorem mem_setParam_of_ne (k2 t k v : List Char)
    (l : List (List Char × List Char)) (hk : k ≠ k2) (hmem : (k, v) ∈ l) :
    (k, v) ∈ setParam l k2 t := by
  unfold setParam
  by_cases hany : l.any (fun p => p.1 == k2) = true
  · rw [if_pos hany]
    refine List.mem_map.mpr ⟨(k, v), hmem, ?_⟩
    simp [hk]
  · rw [if_neg hany]
    exact List.mem_append_left _ hmem

/-- Replacing one value keeps a duplicate-free list key-sorted. -/
theorem sorted_map_keyRepl (k v2 : List Char)
    (m : List (List Char × List Char)) (hs : List.Sorted pairLe m)
    (hk : (m.map Prod.fst).Nodup) :
    List.Sorted pairLe (m.map (keyRepl k v2)) := by
  have hne : List.Pairwise (fun a b : List Char × List Char => a.1 ≠ b.1) m :=
    List.pairwise_map.mp hk
  have hcomb : List.Pairwise (fun a b => pairLe a b ∧ a.1 ≠ b.1) m :=
    List.Pairwise.and hs hne
  refine List.pairwise_map.mpr (hcomb.imp ?_)
  intro a b hh
  obtain ⟨hab, hneq⟩ := hh
  refine Or.inl ?_
  rw [keyRepl_fst, keyRepl_fst]
  rcases hab with h | ⟨h, _⟩
  · exact h
  · exact absurd h hneq

/-- Sorting commutes with replacing the value of one key (keys unique). -/
theorem sortPairs_map_keyRepl (k v2 : List Char)
    (l : List (List Char × List Char)) (hk : (l.map Prod.fst).Nodup) :
    sortPairs (l.map (keyRepl k v2)) = (sortPairs l).map (keyRepl k v2) := by
  have hperm : List.Perm (sortPairs (l.map (keyRepl k v2)))
      ((sortPairs l).map (keyRepl k v2)) :=
    (List.perm_insertionSort pairLe (l.map (keyRepl k v2))).trans
      ((List.perm_insertionSort pairLe l).symm.map (keyRepl k v2))
  have hkS : ((sortPairs l).map Prod.fst).Nodup :=
    (((List.perm_insertionSort pairLe l).map Prod.fst)).nodup_iff.mpr hk
  exact List.eq_of_perm_of_sorted hperm
    (List.sorted_insertionSort pairLe (l.map (keyRepl k v2)))
    (sorted_map_keyRepl k v2 (sortPairs l)
      (List.sorted_insertionSort pairLe l) hkS)

/-- In a list with duplicate-free keys, the two sides of a split at `(k, v)`
contain no further pair with key `k`. -/
theorem keys_split_ne (m X Y : List (List Char × List Char)) (k v : List Char)
    (hm : m = X ++ (k, v) :: Y) (hk : (m.map Prod.fst).Nodup) :
    (∀ q ∈ X, q.1 ≠ k) ∧ (∀ q ∈ Y, q.1 ≠ k) := by
  subst hm
  rw [List.map_append, List.map_cons, List.nodup_append] at hk
  obtain ⟨_, hkY, hdisj⟩ := hk
  constructor
  · intro q hq hqk
    refine hdisj (List.mem_map_of_mem Prod.fst hq) ?_
    rw [hqk]
    exact List.mem_cons_self _ _
  · obtain ⟨hknot, _⟩ := List.nodup_cons.mp hkY
    intro q hq hqk
    have hq1 : q.1 ∈ Y.map Prod.fst := List.mem_map_of_mem Prod.fst hq
    rw [hqk] at hq1
    exact hknot hq1

/-- `map (keyRepl k v2)` over a split rewrites exactly the split pair. -/
theorem map_keyRepl_split (X Y : List (List Char × List Char))
    (k v v2 : List Char) (hX : ∀ q ∈ X, q.1 ≠ k) (hY : ∀ q ∈ Y, q.1 ≠ k) :
    (X ++ (k, v) :: Y).map (keyRepl k v2) = X ++ (k, v2) :: Y := by
  rw [List.map_append, List.map_cons, keyRepl_hit]
  have hXid : X.map (keyRepl k v2) = X := by
    have hmap : X.map (keyRepl k v2) = X.map id :=
      List.map_congr_left fun q hq => keyRepl_of_ne k v2 q (hX q hq)
    rw [hmap, List.map_id]
  have hYid : Y.map (keyRepl k v2) = Y := by
    have hmap : Y.map (keyRepl k v2) = Y.map id :=
      List.map_congr_left fun q hq => keyRepl_of_ne k v2 q (hY q hq)
    rw [hmap, List.map_id]
  rw [hXid, hYid]

/-- `urlencode` on a nonempty tail. -/
theorem encodeQuery_cons_ne (x : List Char × List Char)
    (l : List (List Char × List Char)) (h : l ≠ []) :
    encodeQuery (x :: l) = encPair x ++ '&' :: encodeQuery l := by
  cases l with
  | nil => exact absurd rfl h
  | cons y ys => rfl

/-- The fragments a query head contributes to `urlencode`. -/
def encInit (l : List (List Char × List Char)) : List Char :=
  l.flatMap (fun q => encPair q ++ ['&'])

/-- `urlencode` of a split list, positionally. -/
theorem encodeQuery_split (X : List (List Char × List Char))
    (p : List Char × List Char) (Y : List (List Char × List Char)) :
    encodeQuery (X ++ p :: Y) =
      encInit X ++ encPair p ++
        (match Y with | [] => [] | _ :: _ => '&' :: encodeQuery Y) := by
  induction X with
  | nil =>
    cases Y with
    | nil => simp [encodeQuery, encInit]
    | cons y ys =>
      show encodeQuery (p :: y :: ys) = _
      rw [encodeQuery_cons_ne p (y :: ys) (by simp)]
      simp [encInit]
  | cons x X ih =>
    rw [List.cons_append, encodeQuery_cons_ne x (X ++ p :: Y) (by simp), ih]
    simp [encInit, List.append_assoc]

/-- Two `urlencode` outputs that differ in exactly one value differ. -/
theorem encodeQuery_split_ne (X Y : List (List Char × List Char))
    (k a b : List Char) (hab : a ≠ b) :
    encodeQuery (X ++ (k, a) :: Y) ≠ encodeQuery (X ++ (k, b) :: Y) := by
  intro h
  rw [encodeQuery_split, encodeQuery_split] at h
  rw [List.append_assoc, List.append_assoc] at h
  have h1 := List.append_cancel_left h
  unfold encPair at h1
  rw [List.append_assoc, List.append_assoc] at h1
  have h2 := List.append_cancel_left h1
  rw [List.cons_append, List.cons_append] at h2
  injection h2 with hhead h3
  have h4 := List.append_cancel_right h3
  exact hab (quotePlus_injective h4)

/-- The signed input string only depends on the key-value *set* of the
parameter map. -/
theorem signInput_perm_stable (mixin : List Char) (wts : Int)
    (p1 p2 : List (List Char × List Char)) (hp : List.Perm p1 p2) :
    signInput mixin p1 wts = signInput mixin p2 wts := by
  have hW : List.Perm (setParam p1 "wts".toList (toString wts).toList)
      (setParam p2 "wts".toList (toString wts).toList) :=
    setParam_perm p1 p2 hp "wts".toList (toString wts).toList
  have hsorted : sortPairs (setParam p1 "wts".toList (toString wts).toList) =
      sortPairs (setParam p2 "wts".toList (toString wts).toList) :=
    List.eq_of_perm_of_sorted
      ((List.perm_insertionSort pairLe
          (setParam p1 "wts".toList (toString wts).toList)).trans
        (hW.trans (List.perm_insertionSort pairLe
          (setParam p2 "wts".toList (toString wts).toList)).symm))
      (List.sorted_insertionSort pairLe
        (setParam p1 "wts".toList (toString wts).toList))
      (List.sorted_insertionSort pairLe
        (setParam p2 "wts".toList (toString wts).toList))
  show encodeQuery ((sortPairs (setParam p1 "wts".toList
      (toString wts).toList)).map (fun p => (p.1, filterValue p.2))) ++ mixin =
    encodeQuery ((sortPairs (setParam p2 "wts".toList
      (toString wts).toList)).map (fun p => (p.1, filterValue p.2))) ++ mixin
  rw [hsorted]

/-- `charsAt` succeeds on in-range indices, with one character per index. -/
theorem charsAt_some (raw : List Char) (is : List Nat)
    (h : ∀ i ∈ is, i < raw.length) :
    ∃ cs, charsAt raw is = some cs ∧ cs.length = is.length := by
  induction is with
  | nil => exact ⟨[], rfl, rfl⟩
  | cons i is ih =>
    obtain ⟨cs, hcs, hlen⟩ := ih fun j hj => h j (List.mem_cons_of_mem i hj)
    have hi : i < raw.length := h i (List.mem_cons_self i is)
    obtain ⟨c, hc⟩ : ∃ c, raw.get? i = some c := by
      cases hg : raw.get? i with
      | none => exact absurd (List.get?_eq_none.mp hg) (by omega)
      | some c => exact ⟨c, rfl⟩
    refine ⟨c :: cs, ?_, by simp [hlen]⟩
    show (match raw.get? i, charsAt raw is with
      | some c, some cs => some (c :: cs)
      | _, _ => none) = some (c :: cs)
    rw [hc, hcs]

/-- When the combined keys span the table's index range, `get_mixin_key`
succeeds and the mixin key has exactly 32 characters. -/
theorem getMixinKey_some (imgKey subKey : String)
    (h : 64 ≤ (imgKey ++ subKey).length) :
    ∃ s, getMixinKey imgKey subKey = some s ∧ s.length = 32 := by
  have hall : ∀ i ∈ MIXIN_KEY_ENC_TAB, i < (imgKey ++ subKey).toList.length := by
    intro i hi
    have h64 : ∀ j ∈ MIXIN_KEY_ENC_TAB, j < 64 := by decide
    have hlen : (imgKey ++ subKey).toList.length = (imgKey ++ subKey).length :=
      rfl
    have := h64 i hi
    omega
  obtain ⟨cs, hcs, hlen⟩ :=
    charsAt_some (imgKey ++ subKey).toList MIXIN_KEY_ENC_TAB hall
  refine ⟨String.mk (cs.take 32), ?_, ?_⟩
  · unfold getMixinKey
    rw [hcs]
    rfl
  · show (cs.take 32).length = 32
    rw [List.length_take, hlen]
    decide

/-- **C7 amended**: for a fixed mixin key and timestamp, (a) the signed
input string is *stable under reordering*: two parameter maps that are
permutations of one another yield the identical signed input, hence the
identical `w_rid` under any digest; (b) changing one character of one value
changes the signed input *provided* the parameter keys are duplicate-free,
the changed key is not `wts` (whose value the procedure overwrites), and
the two characters are not both members of the stripped class `!'()*` (the
original claim omitted these conditions; `C7_counterexample` refutes the
unconditional form); (c) for nonempty WBI keys whose combined length covers
the 64-index shuffle table (as the real 32+32-character keys do) the
constructor succeeds and the mixin key has exactly 32 characters. -/
theorem C7_wbi_sign_amended :
    (∀ (mixin : List Char) (wts : Int)
        (p1 p2 : List (List Char × List Char)),
      List.Perm p1 p2 → signInput mixin p1 wts = signInput mixin p2 wts) ∧
    (∀ (mixin : List Char) (wts : Int)
        (params : List (List Char × List Char)) (k u w : List Char)
        (c1 c2 : Char),
      (params.map Prod.fst).Nodup → (k, u ++ c1 :: w) ∈ params →
      k ≠ "wts".toList → c1 ≠ c2 →
      (stripChars.contains c1 = false ∨ stripChars.contains c2 = false) →
      signInput mixin params wts ≠
        signInput mixin (params.map (keyRepl k (u ++ c2 :: w))) wts) ∧
    (∀ imgKey subKey : String, imgKey ≠ "" → subKey ≠ "" →
      64 ≤ (imgKey ++ subKey).length →
      ∃ s, bilibiliSignMixinKey imgKey subKey = some s ∧ s.length = 32) := by
  refine ⟨fun mixin wts p1 p2 hp => signInput_perm_stable mixin wts p1 p2 hp,
    ?_, ?_⟩
  · intro mixin wts params k u w c1 c2 hnodup hmem hkw hne hstrip
    have hW : setParam (params.map (keyRepl k (u ++ c2 :: w))) "wts".toList
        (toString wts).toList =
        (setParam params "wts".toList (toString wts).toList).map
          (keyRepl k (u ++ c2 :: w)) :=
      setParam_map_keyRepl k (u ++ c2 :: w) "wts".toList
        (toString wts).toList params hkw
    have hWnodup : ((setParam params "wts".toList
        (toString wts).toList).map Prod.fst).Nodup :=
      keys_setParam_nodup "wts".toList (toString wts).toList params hnodup
    have hWmem : (k, u ++ c1 :: w) ∈
        setParam params "wts".toList (toString wts).toList :=
      mem_setParam_of_ne "wts".toList (toString wts).toList k
        (u ++ c1 :: w) params hkw hmem
    have hScomm : sortPairs ((setParam params "wts".toList
        (toString wts).toList).map (keyRepl k (u ++ c2 :: w))) =
        (sortPairs (setParam params "wts".toList
          (toString wts).toList)).map (keyRepl k (u ++ c2 :: w)) :=
      sortPairs_map_keyRepl k (u ++ c2 :: w) _ hWnodup
    have hSnodup : ((sortPairs (setParam params "wts".toList
        (toString wts).toList)).map Prod.fst).Nodup :=
      (((List.perm_insertionSort pairLe (setParam params "wts".toList
        (toString wts).toList)).map Prod.fst)).nodup_iff.mpr hWnodup
    have hSmem : (k, u ++ c1 :: w) ∈
        sortPairs (setParam params "wts".toList (toString wts).toList) :=
      (List.perm_insertionSort pairLe (setParam params "wts".toList
        (toString wts).toList)).symm.subset hWmem
    obtain ⟨X, Y, hsplit⟩ := List.append_of_mem hSmem
    obtain ⟨hX, hY⟩ := keys_split_ne _ X Y k (u ++ c1 :: w) hsplit hSnodup
    intro hcontra
    have hfne : filterValue (u ++ c1 :: w) ≠ filterValue (u ++ c2 :: w) :=
      filterValue_ne u w c1 c2 hne hstrip
    have henc := encodeQuery_split_ne
      (X.map (fun p => (p.1, filterValue p.2)))
      (Y.map (fun p => (p.1, filterValue p.2))) k
      (filterValue (u ++ c1 :: w)) (filterValue (u ++ c2 :: w)) hfne
    apply henc
    have h1 : signInput mixin params wts =
        encodeQuery (X.map (fun p => (p.1, filterValue p.2)) ++
          (k, filterValue (u ++ c1 :: w)) ::
            Y.map (fun p => (p.1, filterValue p.2))) ++ mixin := by
      show encodeQuery ((sortPairs (setParam params "wts".toList
          (toString wts).toList)).map
            (fun p => (p.1, filterValue p.2))) ++ mixin = _
      rw [hsplit, List.map_append, List.map_cons]
    have h2 : signInput mixin (params.map (keyRepl k (u ++ c2 :: w))) wts =
        encodeQuery (X.map (fun p => (p.1, filterValue p.2)) ++
          (k, filterValue (u ++ c2 :: w)) ::
            Y.map (fun p => (p.1, filterValue p.2))) ++ mixin := by
      show encodeQuery ((sortPairs (setParam
          (params.map (keyRepl k (u ++ c2 :: w))) "wts".toList
          (toString wts).toList)).map
            (fun p => (p.1, filterValue p.2))) ++ mixin = _
      rw [hW, hScomm, hsplit,
        map_keyRepl_split X Y k (u ++ c1 :: w) (u ++ c2 :: w) hX hY,
        List.map_append, List.map_cons]
    rw [h1, h2] at hcontra
    exact List.append_cancel_right hcontra
  · intro imgKey subKey h1 h2 hlen
    unfold bilibiliSignMixinKey
    rw [if_neg (fun h => h.elim h1 h2)]
    exact getMixinKey_some imgKey subKey hlen

/-- Witness for the amended C7: swapping two parameters preserves the signed
input, changing `xy` to `xz` under key `a` changes it, and a concrete
32+32-character key pair yields a 32-character mixin key. -/
theorem C7_wbi_sign_amended_witness :
    signInput [] [("b".toList, "1".toList), ("a".toList, "2".toList)] 0 =
      signInput [] [("a".toList, "2".toList), ("b".toList, "1".toList)] 0 ∧
    signInput [] [("a".toList, "xy".toList)] 0 ≠
      signInput [] [("a".toList, "xz".toList)] 0 ∧
    (∃ s, bilibiliSignMixinKey "0123456789abcdef0123456789abcdef"
      "0123456789abcdef0123456789abcdef" = some s ∧ s.length = 32) := by
  refine ⟨?_, ?_, ?_⟩
  · exact C7_wbi_sign_amended.1 [] 0
      [("b".toList, "1".toList), ("a".toList, "2".toList)]
      [("a".toList, "2".toList), ("b".toList, "1".toList)]
      (List.Perm.swap ("a".toList, "2".toList) ("b".toList, "1".toList) [])
  · exact C7_wbi_sign_amended.2.1 [] 0 [("a".toList, "xy".toList)]
      "a".toList "x".toList [] 'y' 'z' (by decide) (by decide) (by decide)
      (by decide) (by decide)
  · exact C7_wbi_sign_amended.2.2 "0123456789abcdef0123456789abcdef"
      "0123456789abcdef0123456789abcdef" (by decide) (by decide) (by decide)

end BiliSentinel
